import Mathlib

/-!
LocalChat: shared-memory broadcast chat (`interprocess_chat_raw.cpp`)

A shallow embedding of class `Chat` and of `main`, and the properties of the
specification proved or refuted on it.

* A `std::string` is a list of characters (`Text`); a NUL character is an
  ordinary element of it, as in C++, and `c_str` is what a reader of the
  NUL-terminated string sees.
* The managed shared-memory segment is the record `Segment` of the objects
  the constructor finds or constructs in it.  Segments live in a heap
  (`Shared.segs`); the name `"shared_memory"` denotes at most one of them
  (`Shared.named`).  `shared_memory_object::remove` only unbinds the name:
  a process that has mapped the segment keeps its mapping.
* `std::size_t` values are natural numbers; the increment and the decrement
  of the participant counter wrap around at `SIZE_MOD`.
* Every block of code that runs with `*m_mutex` held is one atomic step, and
  so is every operation on a `std::atomic`.  The body of the outer loop of
  `Chat::read` holds the `unique_lock` from line 95 to the end of the pass, so
  one pass is one step; the passes of its inner loop are spelled out in
  `Chat.read_inner` and `Chat.read_inner_passes`.  The constructor, whose
  calls the segment manager serialises, is one step.
* A process is a main thread (`main`, the constructor, `run`, `write`) and a
  reader thread (`read`), each with a program counter.  A schedule is a list
  of `Action`s; `World.run` executes a schedule from a host that starts with
  no segment and no process.  `std::getline` on an exhausted console input
  blocks.
* The segment has a fixed size (`memory_size`, line 37), so the allocation
  `send_message` makes for a new entry can fail: boost throws `bad_alloc`,
  nothing in `Chat` catches it, the log is unchanged and the process is
  terminated (`Proc.aborted`).  What the segment manager answers is a
  parameter of the embedding (`Alloc`), a function of the log so far and of
  the entry to store; every theorem holds for every such answer.  Whether the
  terminated process still holds the mutex is left open: the other processes
  may go on, which includes the runs in which they block.  The objects the
  constructor builds in a fresh segment always fit.
* The prompts printed by `main` and `system("pause")` are not recorded.
-/

namespace LocalChat

/-- A `std::string`: a sequence of characters. -/
abbrev Text := List Char

/-- The value `std::string::c_str()` denotes when it is read back as a
NUL-terminated string, as `string_t(message.c_str(), ...)` does on line 114:
the characters before the first NUL. -/
def c_str (s : Text) : Text :=
  s.takeWhile (fun c => c != Char.ofNat 0)

/-- The literal `"!exit"` of line 127. -/
def exit_command : Text := "!exit".toList

/-- The literal `" joined the chat"` of line 91. -/
def joined_suffix : Text := " joined the chat".toList

/-- The literal `" left the chat"` of line 81. -/
def left_suffix : Text := " left the chat".toList

/-- The constant `memory_size` of line 37: the size in bytes of the managed
segment. -/
def memory_size : Nat := 65536

/-- What the segment manager answers when `send_message` asks for the
storage of a new entry: `fits log entry` is `true` when the segment whose
log is `log` (the log records every allocation made so far) can also hold
`entry`, and `false` when the allocation throws `bad_alloc`. -/
abbrev Alloc := List Text → Text → Bool

/-- A sample segment manager for the runs below: it grants an entry while
the characters of all entries, each with its terminator, stay within
`capacity` bytes. -/
def byte_alloc (capacity : Nat) : Alloc :=
  fun log entry => decide ((log.map (fun e => e.length + 1)).sum + (entry.length + 1) ≤ capacity)

/-- Width of `std::size_t`, the value type of `counter_t`. -/
def SIZE_MOD : Nat := 2 ^ 64

/-- The objects held in the managed segment: `vector`, `number_of_users`
and `message_ID` (the mutex and the condition carry no state between atomic
steps). -/
structure Segment where
  vector : List Text
  number_of_users : Nat
  message_ID : Nat
deriving DecidableEq

/-- The call `find_or_construct<T>(name)(init)`: the object already stored
under the name if there is one, otherwise a newly constructed one. -/
def find_or_construct {α : Type} (existing : Option α) (init : α) : α :=
  match existing with
  | some a => a
  | none => init

/-- Lines 60-66 of the constructor on the object table of the segment it
opened (`some s`) or created (`none`): the five `find_or_construct` calls
followed by `++(*m_users)`. -/
def Segment.attach (existing : Option Segment) : Segment :=
  let vector := find_or_construct (existing.map Segment.vector) []
  let users := find_or_construct (existing.map Segment.number_of_users) 0
  let messages := find_or_construct (existing.map Segment.message_ID) 0
  { vector := vector, number_of_users := (users + 1) % SIZE_MOD, message_ID := messages }

/-- The body of `send_message` (lines 112-116) on the segment: `push_back`
of a string built from `message.c_str()` in the storage of the segment;
`none` when the segment cannot hold the entry (`bad_alloc` is thrown and the
log is left as it was). -/
def Segment.send_message (fits : Alloc) (s : Segment) (message : Text) : Option Segment :=
  if fits s.vector (c_str message) then
    some { s with vector := s.vector ++ [c_str message] }
  else none

/-- The expression `--(*m_users)` of line 83, an unsigned decrement (zero
wraps around to `SIZE_MOD - 1`): the updated segment and the value after the
decrement. -/
def Segment.detach (s : Segment) : Segment × Nat :=
  let n := if s.number_of_users = 0 then SIZE_MOD - 1 else s.number_of_users - 1
  ({ s with number_of_users := n }, n)

/-- The shared-memory namespace of the host: every segment created so far
and the one the name `"shared_memory"` is bound to. -/
structure Shared where
  segs : List Segment
  named : Option Nat
deriving DecidableEq

/-- The call `shared_memory_object::remove("shared_memory")`. -/
def Shared.remove (sh : Shared) : Shared :=
  { sh with named := none }

/-- The data members of `Chat`; `m_shared_memory` is the index of the
mapped segment, through which `m_vector` and `m_users` are reached. -/
structure Chat where
  m_user_name : Text
  m_exit_flag : Bool
  m_local_messages : Nat
  m_shared_memory : Nat
deriving DecidableEq

/-- The constructor `Chat::Chat` (lines 57-67): `open_or_create` followed
by `Segment.attach`. -/
def Chat.ctor (sh : Shared) (user_name : Text) : Shared × Chat :=
  match sh.named with
  | some id =>
    ({ sh with segs := sh.segs.set id (Segment.attach sh.segs[id]?) },
     { m_user_name := user_name, m_exit_flag := false, m_local_messages := 0,
       m_shared_memory := id })
  | none =>
    ({ segs := sh.segs ++ [Segment.attach none], named := some sh.segs.length },
     { m_user_name := user_name, m_exit_flag := false, m_local_messages := 0,
       m_shared_memory := sh.segs.length })

/-- The function `Chat::send_message` (lines 110-117) through the mapping
of the session; `none` when the call does not return (`bad_alloc`, or no
segment mapped). -/
def Chat.send_message (fits : Alloc) (segs : List Segment) (c : Chat) (message : Text) :
    Option (List Segment) :=
  match segs[c.m_shared_memory]? with
  | some s =>
    match s.send_message fits message with
    | some s' => some (segs.set c.m_shared_memory s')
    | none => none
  | none => none

/-- The predicate handed to `m_condition->wait` on line 97. -/
def Chat.read_wait_pred (v : List Text) : Bool :=
  !v.isEmpty

/-- Lines 104-105: write entry `m_local_messages` to the output and advance
the cursor; `none` when the index is out of range. -/
def Chat.read_body (v : List Text) (st : Nat × List Text) : Option (Nat × List Text) :=
  match v[st.1]? with
  | some e => some (st.1 + 1, st.2 ++ [e])
  | none => none

/-- The inner loop of `Chat::read` (lines 102-106) on the pair of cursor
and output; `none` when the fuel runs out or an index is out of range. -/
def Chat.read_inner : Nat → List Text → Nat × List Text → Option (Nat × List Text)
  | 0, _, _ => none
  | fuel + 1, v, st =>
    if v.length != st.1 then
      match Chat.read_body v st with
      | some st' => Chat.read_inner fuel v st'
      | none => none
    else some st

/-- Program counter of the main thread: the statement it runs next. -/
inductive MainPc where
  | remove0   -- line 140
  | getname   -- line 144
  | ctor      -- line 148, the constructor
  | spawn     -- line 75
  | write     -- lines 123-132
  | join      -- line 79
  | left      -- line 81
  | decr      -- line 83, the decrement
  | remove    -- line 84
  | done      -- line 150
deriving DecidableEq

/-- Program counter of the reader thread. -/
inductive ReadPc where
  | idle      -- not started
  | joined    -- line 91
  | loop      -- lines 93-107, top of a pass
  | exited    -- after the break of line 100
deriving DecidableEq

/-- One process: its console input, the local `user_name` of `main`, the
`Chat` object once constructed, the lines `Chat::read` has written, the two
program counters, and whether an uncaught exception has terminated it. -/
structure Proc where
  stdin : List Text
  user_name : Text
  chat : Option Chat
  cout : List Text
  main : MainPc
  reader : ReadPc
  aborted : Bool
deriving DecidableEq

/-- A process at the start of `main` with the given console input. -/
def Proc.start (stdin : List Text) : Proc :=
  { stdin := stdin, user_name := [], chat := none, cout := [],
    main := MainPc.remove0, reader := ReadPc.idle, aborted := false }

/-- The body of the loop of `Chat::write` (lines 125-130) for one input
line; `none` when `send_message` does not return. -/
def Chat.write_body (fits : Alloc) (segs : List Segment) (c : Chat) (message : Text) :
    Option (List Segment × Chat) :=
  if message = exit_command then
    some (segs, { c with m_exit_flag := true })
  else
    match c.send_message fits segs (['['] ++ c.m_user_name ++ "]: ".toList ++ message) with
    | some segs' => some (segs', c)
    | none => none

/-- One pass of the outer loop of `Chat::read` (lines 95-106): `none`
while the wait predicate is false, otherwise the new cursor and output and
whether the loop was left by the `break`. -/
def Chat.read_pass (segs : List Segment) (c : Chat) (cout : List Text) :
    Option (Chat × List Text × Bool) :=
  match segs[c.m_shared_memory]? with
  | none => none
  | some s =>
    if Chat.read_wait_pred s.vector then
      if c.m_exit_flag then some (c, cout, true)
      else
        match Chat.read_inner (s.vector.length + 1) s.vector (c.m_local_messages, cout) with
        | some st => some ({ c with m_local_messages := st.1 }, st.2, false)
        | none => none
    else none

/-- One step of the main thread of a process; `none` when the thread is
blocked or has finished.  A `send_message` that throws terminates the
process. -/
def Proc.mainStep (fits : Alloc) (sh : Shared) (p : Proc) : Option (Shared × Proc) :=
  match p.main with
  | MainPc.remove0 => some (sh.remove, { p with main := MainPc.getname })
  | MainPc.getname =>
    match p.stdin with
    | [] => none
    | l :: rest => some (sh, { p with stdin := rest, user_name := l, main := MainPc.ctor })
  | MainPc.ctor =>
    let r := Chat.ctor sh p.user_name
    some (r.1, { p with chat := some r.2, main := MainPc.spawn })
  | MainPc.spawn => some (sh, { p with reader := ReadPc.joined, main := MainPc.write })
  | MainPc.write =>
    match p.chat with
    | none => none
    | some c =>
      if c.m_exit_flag then some (sh, { p with main := MainPc.join })
      else
        match p.stdin with
        | [] => none
        | l :: rest =>
          match Chat.write_body fits sh.segs c l with
          | some r => some ({ sh with segs := r.1 }, { p with stdin := rest, chat := some r.2 })
          | none => some (sh, { p with stdin := rest, aborted := true })
  | MainPc.join =>
    if p.reader = ReadPc.exited then some (sh, { p with main := MainPc.left }) else none
  | MainPc.left =>
    match p.chat with
    | none => none
    | some c =>
      match c.send_message fits sh.segs (c.m_user_name ++ left_suffix) with
      | some segs' => some ({ sh with segs := segs' }, { p with main := MainPc.decr })
      | none => some (sh, { p with aborted := true })
  | MainPc.decr =>
    match p.chat with
    | none => none
    | some c =>
      match sh.segs[c.m_shared_memory]? with
      | none => none
      | some s =>
        let r := s.detach
        some ({ sh with segs := sh.segs.set c.m_shared_memory r.1 },
              { p with main := if r.2 = 0 then MainPc.remove else MainPc.done })
  | MainPc.remove => some (sh.remove, { p with main := MainPc.done })
  | MainPc.done => none

/-- One step of the reader thread of a process; `none` when the thread is
blocked, not started or has finished.  A `send_message` that throws
terminates the process. -/
def Proc.readerStep (fits : Alloc) (sh : Shared) (p : Proc) : Option (Shared × Proc) :=
  match p.reader with
  | ReadPc.idle => none
  | ReadPc.joined =>
    match p.chat with
    | none => none
    | some c =>
      match c.send_message fits sh.segs (c.m_user_name ++ joined_suffix) with
      | some segs' => some ({ sh with segs := segs' }, { p with reader := ReadPc.loop })
      | none => some (sh, { p with aborted := true })
  | ReadPc.loop =>
    match p.chat with
    | none => none
    | some c =>
      match Chat.read_pass sh.segs c p.cout with
      | some r =>
        some (sh, { p with chat := some r.1, cout := r.2.1,
                           reader := if r.2.2 then ReadPc.exited else ReadPc.loop })
      | none => none
  | ReadPc.exited => none

/-- The host: the shared-memory namespace and the processes started so
far. -/
structure World where
  shared : Shared
  procs : List Proc
deriving DecidableEq

/-- No segment, no process. -/
def World.init : World :=
  { shared := { segs := [], named := none }, procs := [] }

/-- What the scheduler can do next: start a process with a console input,
or let the main or the reader thread of process `pid` take one step. -/
inductive Action where
  | start (stdin : List Text)
  | main (pid : Nat)
  | reader (pid : Nat)
deriving DecidableEq

/-- The step a thread of the process takes, none once the process has been
terminated. -/
def Proc.ifAlive (p : Proc) (step : Option (Shared × Proc)) : Option (Shared × Proc) :=
  if p.aborted then none else step

/-- One scheduled step of the host. -/
def World.step (fits : Alloc) (w : World) : Action → Option World
  | Action.start stdin => some { w with procs := w.procs ++ [Proc.start stdin] }
  | Action.main pid =>
    match w.procs[pid]? with
    | none => none
    | some p =>
      match p.ifAlive (p.mainStep fits w.shared) with
      | some r => some { shared := r.1, procs := w.procs.set pid r.2 }
      | none => none
  | Action.reader pid =>
    match w.procs[pid]? with
    | none => none
    | some p =>
      match p.ifAlive (p.readerStep fits w.shared) with
      | some r => some { shared := r.1, procs := w.procs.set pid r.2 }
      | none => none

/-- Execution of a schedule; `none` when some scheduled step is not
enabled. -/
def World.run (fits : Alloc) : World → List Action → Option World
  | w, [] => some w
  | w, a :: rest =>
    match w.step fits a with
    | some w' => World.run fits w' rest
    | none => none

/-- Every segment of the first heap is still in the second, with a log
that extends it. -/
def SegsLe (segs segs' : List Segment) : Prop :=
  ∀ (i : Nat) (s : Segment), segs[i]? = some s →
    ∃ s', segs'[i]? = some s' ∧ s.vector <+: s'.vector

/-- Has the main thread completed the constructor? -/
def MainPc.constructed : MainPc → Bool
  | MainPc.remove0 => false
  | MainPc.getname => false
  | MainPc.ctor => false
  | _ => true

/-- Has the main thread returned from `reader.join()` (line 79)? -/
def MainPc.afterJoin : MainPc → Bool
  | MainPc.left => true
  | MainPc.decr => true
  | MainPc.remove => true
  | MainPc.done => true
  | _ => false

/-- Has the main thread returned from the `send_message` of line 81? -/
def MainPc.afterLeft : MainPc → Bool
  | MainPc.decr => true
  | MainPc.remove => true
  | MainPc.done => true
  | _ => false

/-- Has the reader thread returned from the `send_message` of line 91? -/
def ReadPc.afterJoined : ReadPc → Bool
  | ReadPc.loop => true
  | ReadPc.exited => true
  | _ => false

/-- The invariant of one session relative to the segment it has mapped. -/
structure SessionInv (s : Segment) (p : Proc) (c : Chat) : Prop where
  name_eq : c.m_user_name = p.user_name
  cursor_le : c.m_local_messages ≤ s.vector.length
  cout_eq : p.cout = s.vector.take c.m_local_messages
  joined_mem : p.reader.afterJoined = true → c_str (c.m_user_name ++ joined_suffix) ∈ s.vector
  left_mem : p.main.afterLeft = true → c_str (c.m_user_name ++ left_suffix) ∈ s.vector
  reader_exited : p.main.afterJoin = true → p.reader = ReadPc.exited
  flag_set : p.reader = ReadPc.exited → c.m_exit_flag = true
  flag_main : p.main = MainPc.join ∨ p.main.afterJoin = true → c.m_exit_flag = true
  reader_idle : p.reader = ReadPc.idle ↔ p.main = MainPc.spawn

/-- The invariant of one process relative to the heap of segments. -/
def ProcInv (segs : List Segment) (p : Proc) : Prop :=
  match p.chat with
  | none => p.main.constructed = false ∧ p.reader = ReadPc.idle ∧ p.cout = []
  | some c => p.main.constructed = true ∧
      ∃ s, segs[c.m_shared_memory]? = some s ∧ SessionInv s p c

/-- The invariant of the host. -/
structure WorldInv (w : World) : Prop where
  named_lt : ∀ id, w.shared.named = some id → id < w.shared.segs.length
  procs : ∀ p ∈ w.procs, ProcInv w.shared.segs p

/-- The inner loop of `Chat::read` cut off after at most `n` passes: the
cursor and output it has reached by then. -/
def Chat.read_inner_passes : Nat → List Text → Nat × List Text → Option (Nat × List Text)
  | 0, _, st => some st
  | n + 1, v, st =>
    if v.length != st.1 then
      match Chat.read_body v st with
      | some st' => Chat.read_inner_passes n v st'
      | none => none
    else some st

/-! ## Sample schedules -/

/-- One process whose console input is the name `bob` and then `!exit`; the
writer reads `!exit` before the reader thread has run, and the reader then
posts its join notice. -/
def demo_exit_only_pre : List Action :=
  [Action.start ["bob".toList, "!exit".toList],
   Action.main 0, Action.main 0, Action.main 0, Action.main 0, Action.main 0,
   Action.reader 0]

/-- The session of `bob` after `demo_exit_only_pre`, before and after the
next pass of its reader. -/
def demo_exit_only_chat : Chat :=
  { m_user_name := "bob".toList, m_exit_flag := true, m_local_messages := 0,
    m_shared_memory := 0 }

/-- The segment after `demo_exit_only_pre`, before and after that pass. -/
def demo_exit_only_segment : Segment :=
  { vector := ["bob joined the chat".toList], number_of_users := 1, message_ID := 0 }

/-- The process of `bob` with the reader in the given place. -/
def demo_exit_only_proc (reader : ReadPc) : Proc :=
  { stdin := [], user_name := "bob".toList, chat := some demo_exit_only_chat,
    cout := [], main := MainPc.write, reader := reader,
    aborted := false }

/-- The state `demo_exit_only_pre` ends in. -/
def demo_exit_only_pre_world : World :=
  { shared := { segs := [demo_exit_only_segment], named := some 0 },
    procs := [demo_exit_only_proc ReadPc.loop] }

/-- The state after the reader has run one more pass. -/
def demo_exit_only_world : World :=
  { shared := { segs := [demo_exit_only_segment], named := some 0 },
    procs := [demo_exit_only_proc ReadPc.exited] }

/-- Two processes that both pass line 140 before either constructs its
`Chat`, so that they share one segment; each sends one line and drains. -/
def demo_two : List Action :=
  [Action.start ["alice".toList, "hi".toList], Action.start ["bob".toList, "yo".toList],
   Action.main 0, Action.main 1, Action.main 0, Action.main 0, Action.main 1, Action.main 1,
   Action.main 0, Action.main 1, Action.reader 0, Action.reader 1,
   Action.main 0, Action.reader 0, Action.main 1, Action.reader 1]

/-- The session of `alice` at the end of `demo_two`. -/
def demo_two_alice_chat : Chat :=
  { m_user_name := "alice".toList, m_exit_flag := false, m_local_messages := 3,
    m_shared_memory := 0 }

/-- The process of `alice` at the end of `demo_two`. -/
def demo_two_alice : Proc :=
  { stdin := [], user_name := "alice".toList, chat := some demo_two_alice_chat,
    cout := ["alice joined the chat".toList, "bob joined the chat".toList,
             "[alice]: hi".toList],
    main := MainPc.write, reader := ReadPc.loop,
    aborted := false }

/-- The session of `bob` at the end of `demo_two`. -/
def demo_two_bob_chat : Chat :=
  { m_user_name := "bob".toList, m_exit_flag := false, m_local_messages := 4,
    m_shared_memory := 0 }

/-- The process of `bob` at the end of `demo_two`. -/
def demo_two_bob : Proc :=
  { stdin := [], user_name := "bob".toList, chat := some demo_two_bob_chat,
    cout := ["alice joined the chat".toList, "bob joined the chat".toList,
             "[alice]: hi".toList, "[bob]: yo".toList],
    main := MainPc.write, reader := ReadPc.loop,
    aborted := false }

/-- The state `demo_two` ends in. -/
def demo_two_world : World :=
  { shared := { segs := [{ vector := ["alice joined the chat".toList,
                                      "bob joined the chat".toList,
                                      "[alice]: hi".toList, "[bob]: yo".toList],
                           number_of_users := 2, message_ID := 0 }],
                named := some 0 },
    procs := [demo_two_alice, demo_two_bob] }

/-- A session of one process named `n` that sends `hi` and then `!exit`,
run until `reader.join()` has returned (line 79). -/
def demo_left (n : Text) : List Action :=
  [Action.start [n, "hi".toList, "!exit".toList],
   Action.main 0, Action.main 0, Action.main 0, Action.main 0,
   Action.reader 0, Action.main 0, Action.reader 0, Action.main 0, Action.main 0,
   Action.reader 0, Action.main 0]

/-- The same session run to the end of `main`: lines 81, 83 and 84. -/
def demo_full (n : Text) : List Action :=
  demo_left n ++ [Action.main 0, Action.main 0, Action.main 0]

/-- The process of `carol` at the end of `demo_left`. -/
def demo_left_proc : Proc :=
  { stdin := [], user_name := "carol".toList,
    chat := some { m_user_name := "carol".toList, m_exit_flag := true, m_local_messages := 2,
                   m_shared_memory := 0 },
    cout := ["carol joined the chat".toList, "[carol]: hi".toList],
    main := MainPc.left, reader := ReadPc.exited, aborted := false }

/-- The state `demo_left` ends in for the name `carol`. -/
def demo_left_world : World :=
  { shared := { segs := [{ vector := ["carol joined the chat".toList, "[carol]: hi".toList],
                           number_of_users := 1, message_ID := 0 }],
                named := some 0 },
    procs := [demo_left_proc] }

/-- The session of `carol` at the end of `demo_full`. -/
def demo_full_chat : Chat :=
  { m_user_name := "carol".toList, m_exit_flag := true, m_local_messages := 2,
    m_shared_memory := 0 }

/-- The process of `carol` at the end of `demo_full`. -/
def demo_full_proc : Proc :=
  { stdin := [], user_name := "carol".toList, chat := some demo_full_chat,
    cout := ["carol joined the chat".toList, "[carol]: hi".toList],
    main := MainPc.done, reader := ReadPc.exited,
    aborted := false }

/-- The state `demo_full` ends in for the name `carol`. -/
def demo_full_world : World :=
  { shared := { segs := [{ vector := ["carol joined the chat".toList, "[carol]: hi".toList,
                                      "carol left the chat".toList],
                           number_of_users := 0, message_ID := 0 }],
                named := none },
    procs := [demo_full_proc] }

/-- A name with a NUL character in it: `a`, NUL, `b`. -/
def nul_name : Text := ['a', Char.ofNat 0, 'b']

/-- The session named `nul_name` at the end of `demo_full`. -/
def demo_nul_chat : Chat :=
  { m_user_name := nul_name, m_exit_flag := true, m_local_messages := 2,
    m_shared_memory := 0 }

/-- The process named `nul_name` at the end of `demo_full`. -/
def demo_nul_proc : Proc :=
  { stdin := [], user_name := nul_name, chat := some demo_nul_chat,
    cout := ["a".toList, "[a".toList], main := MainPc.done, reader := ReadPc.exited,
    aborted := false }

/-- The segment at the end of `demo_full` for the name `nul_name`. -/
def demo_nul_segment : Segment :=
  { vector := ["a".toList, "[a".toList, "a".toList], number_of_users := 0, message_ID := 0 }

/-- The state `demo_full` ends in for the name `nul_name`. -/
def demo_nul_world : World :=
  { shared := { segs := [demo_nul_segment], named := none }, procs := [demo_nul_proc] }

/-- A session named `a` mapped on segment 0, and a one-segment heap. -/
def demo_writer : Chat :=
  { m_user_name := "a".toList, m_exit_flag := false, m_local_messages := 0,
    m_shared_memory := 0 }

/-- The segment `demo_writer` is mapped on. -/
def demo_writer_segment : Segment :=
  { vector := ["a joined the chat".toList], number_of_users := 1, message_ID := 0 }

/-- An input line with a NUL character in it: `x`, NUL, `y`. -/
def nul_line : Text := ['x', Char.ofNat 0, 'y']

/-- One process named `alice` that has constructed its `Chat` and posted its
join notice. -/
def demo_late_before : List Action :=
  [Action.start ["alice".toList],
   Action.main 0, Action.main 0, Action.main 0, Action.main 0, Action.reader 0]

/-- After `demo_late_before`, a second process named `bob` starts and runs
lines 140, 144 and 148 of `main`. -/
def demo_late : List Action :=
  demo_late_before ++ [Action.start ["bob".toList], Action.main 1, Action.main 1, Action.main 1]

/-! ## Operations of the sessions on one segment -/

/-- An operation some session performs on the objects of one segment: the
body of a constructor (lines 60-66), a call of `send_message`, or the
decrement of line 83. -/
inductive SegOp where
  | attach
  | send (m : Text)
  | detach
deriving DecidableEq

/-- One operation on the objects of the segment (`none` until a constructor
has created them) and on the list of the values the decrements returned; a
`send_message` that throws leaves the segment as it was. -/
def SegOp.apply (fits : Alloc) (st : Option Segment × List Nat) :
    SegOp → Option Segment × List Nat
  | SegOp.attach => (some (Segment.attach st.1), st.2)
  | SegOp.send m => (st.1.map (fun s => (s.send_message fits m).getD s), st.2)
  | SegOp.detach =>
    match st.1 with
    | some s => (some s.detach.1, st.2 ++ [s.detach.2])
    | none => st

/-- A sequence of operations, in the order the lock and the atomic counter
serialise them. -/
def SegOp.run (fits : Alloc) (st : Option Segment × List Nat) (tr : List SegOp) :
    Option Segment × List Nat :=
  tr.foldl (SegOp.apply fits) st

/-- The participant counter of the segment, 0 while it does not exist. -/
def SegOp.users (st : Option Segment × List Nat) : Nat :=
  match st.1 with
  | some s => s.number_of_users
  | none => 0

/-- Three constructors with sends in between. -/
def demo_joins : List SegOp :=
  [SegOp.attach, SegOp.send "a joined the chat".toList, SegOp.attach, SegOp.attach,
   SegOp.send "[b]: hi".toList]

/-- Three decrements with sends in between. -/
def demo_leaves : List SegOp :=
  [SegOp.send "b left the chat".toList, SegOp.detach, SegOp.detach,
   SegOp.send "a left the chat".toList, SegOp.detach]

/-! ## Sessions attached to a segment -/

/-- Is the main thread between the end of the constructor and the decrement
of line 83 (the decrement not yet done)? -/
def MainPc.attached : MainPc → Bool
  | MainPc.spawn => true
  | MainPc.write => true
  | MainPc.join => true
  | MainPc.left => true
  | MainPc.decr => true
  | _ => false

/-- Does the process hold a session constructed on segment `i` that has not
done its decrement (a session terminated by an exception never does)? -/
def Proc.attachedTo (i : Nat) (p : Proc) : Bool :=
  match p.chat with
  | some c => decide (c.m_shared_memory = i) && p.main.attached
  | none => false

/-- The number of sessions constructed on segment `i` that have not yet done
their decrement. -/
def World.sessionsOn (w : World) (i : Nat) : Nat :=
  w.procs.countP (Proc.attachedTo i)

/-- The participant counter of every segment counts the sessions attached
to it, modulo the range of `std::size_t`. -/
def CountInv (w : World) : Prop :=
  ∀ (i : Nat) (s : Segment), w.shared.segs[i]? = some s →
    s.number_of_users = w.sessionsOn i % SIZE_MOD

section

variable {fits : Alloc}

/-! ## Lemmas on the heap order -/

theorem SegsLe.refl (segs : List Segment) : SegsLe segs segs :=
  fun _ s h => ⟨s, h, List.prefix_refl _⟩

theorem SegsLe.trans {a b c : List Segment} (hab : SegsLe a b) (hbc : SegsLe b c) :
    SegsLe a c := by
  intro id s h
  obtain ⟨s', h', hp⟩ := hab id s h
  obtain ⟨s'', h'', hp'⟩ := hbc id s' h'
  exact ⟨s'', h'', hp.trans hp'⟩

theorem SegsLe.set {segs : List Segment} {id : Nat} {s s' : Segment}
    (h : segs[id]? = some s) (hp : s.vector <+: s'.vector) :
    SegsLe segs (segs.set id s') := by
  intro j t hj
  by_cases hij : id = j
  · subst hij
    have hlt : id < segs.length := by
      rcases List.getElem?_eq_some_iff.mp h with ⟨hlt, _⟩
      exact hlt
    refine ⟨s', by simp [List.getElem?_set, hlt], ?_⟩
    rw [h] at hj
    cases hj
    exact hp
  · exact ⟨t, by simp [List.getElem?_set, hij, hj], List.prefix_refl _⟩

theorem SegsLe.append (segs l : List Segment) : SegsLe segs (segs ++ l) := by
  intro j t hj
  have hlt : j < segs.length := by
    rcases List.getElem?_eq_some_iff.mp hj with ⟨hlt, _⟩
    exact hlt
  exact ⟨t, by rw [List.getElem?_append_left hlt]; exact hj, List.prefix_refl _⟩

theorem SegsLe.length_le {a b : List Segment} (h : SegsLe a b) : a.length ≤ b.length := by
  by_contra hlt
  push_neg at hlt
  have hb : b.length < a.length := hlt
  obtain ⟨s', h', _⟩ := h b.length (a.get ⟨b.length, hb⟩) (by simp [List.getElem?_eq_getElem, hb])
  have := (List.getElem?_eq_some_iff.mp h').1
  omega

/-! ## The inner loop of `Chat::read` -/

theorem Chat.read_body_of_lt {v : List Text} {st : Nat × List Text} (h : st.1 < v.length) :
    Chat.read_body v st = some (st.1 + 1, st.2 ++ [v.get ⟨st.1, h⟩]) := by
  simp [Chat.read_body, List.getElem?_eq_getElem h]

theorem Chat.read_body_cursor {v : List Text} {st st' : Nat × List Text}
    (h : Chat.read_body v st = some st') : st'.1 = st.1 + 1 ∧ st.1 < v.length := by
  unfold Chat.read_body at h
  split at h
  · rename_i e he
    cases h
    exact ⟨rfl, (List.getElem?_eq_some_iff.mp he).1⟩
  · cases h

/-- One pass of the body keeps "the output is the log up to the cursor". -/
theorem Chat.read_body_prefix {v : List Text} {st st' : Nat × List Text}
    (hout : st.2 = v.take st.1) (h : Chat.read_body v st = some st') :
    st'.1 ≤ v.length ∧ st'.2 = v.take st'.1 := by
  have hlt := (Chat.read_body_cursor h).2
  rw [Chat.read_body_of_lt hlt] at h
  cases h
  refine ⟨hlt, ?_⟩
  simp only [hout]
  rw [List.take_succ, List.getElem?_eq_getElem hlt]
  simp

/-- With the cursor inside the log and enough fuel the inner loop returns,
with the cursor at the end of the log and the whole log written. -/
theorem Chat.read_inner_spec (v : List Text) :
    ∀ (fuel : Nat) (st : Nat × List Text), st.1 ≤ v.length → st.2 = v.take st.1 →
      v.length - st.1 < fuel → Chat.read_inner fuel v st = some (v.length, v) := by
  intro fuel
  induction fuel with
  | zero => intro st _ _ h; omega
  | succ n ih =>
    intro st hle hout hfuel
    unfold Chat.read_inner
    by_cases hlen : v.length = st.1
    · have hst : st = (v.length, v) := by
        rcases st with ⟨a, b⟩
        simp only at hlen hout
        subst hlen
        simp [hout]
      simp [hlen]
      rw [hst]
    · have hlt : st.1 < v.length := by omega
      simp only [bne_iff_ne, ne_eq, hlen, not_false_eq_true, ↓reduceIte]
      have hb : Chat.read_body v st = some (st.1 + 1, st.2 ++ [v.get ⟨st.1, hlt⟩]) :=
        Chat.read_body_of_lt hlt
      have hp := Chat.read_body_prefix hout hb
      rw [hb]
      simp only
      apply ih
      · exact hp.1
      · exact hp.2
      · simp only; omega

/-- The inner loop never moves the cursor back. -/
theorem Chat.read_inner_cursor_le (v : List Text) :
    ∀ (fuel : Nat) (st st' : Nat × List Text),
      Chat.read_inner fuel v st = some st' → st.1 ≤ st'.1 := by
  intro fuel
  induction fuel with
  | zero => intro st st' h; simp [Chat.read_inner] at h
  | succ n ih =>
    intro st st' h
    unfold Chat.read_inner at h
    split at h
    · split at h
      · rename_i st1 hb
        have h1 := (Chat.read_body_cursor hb).1
        have h2 := ih _ _ h
        omega
      · cases h
    · cases h
      exact Nat.le_refl _

/-! ## Stability of the session invariant -/

theorem SessionInv.extend {s s' : Segment} {p : Proc} {c : Chat}
    (h : SessionInv s p c) (hp : s.vector <+: s'.vector) : SessionInv s' p c := by
  obtain ⟨t, ht⟩ := hp
  refine { h with cursor_le := ?_, cout_eq := ?_, joined_mem := ?_, left_mem := ?_ }
  · have := h.cursor_le
    rw [← ht, List.length_append]
    omega
  · rw [← ht, List.take_append_of_le_length h.cursor_le]
    exact h.cout_eq
  · intro hj
    rw [← ht]
    exact List.mem_append_left _ (h.joined_mem hj)
  · intro hj
    rw [← ht]
    exact List.mem_append_left _ (h.left_mem hj)

theorem ProcInv.mono {segs segs' : List Segment} {p : Proc}
    (h : ProcInv segs p) (hle : SegsLe segs segs') : ProcInv segs' p := by
  unfold ProcInv at h ⊢
  cases hc : p.chat with
  | none => simpa [hc] using h
  | some c =>
    simp only [hc] at h ⊢
    obtain ⟨hm, s, hs, hinv⟩ := h
    obtain ⟨s', hs', hp⟩ := hle _ s hs
    exact ⟨hm, s', hs', hinv.extend hp⟩

theorem getElem?_set_self_of_some {segs : List Segment} {i : Nat} {s s' : Segment}
    (h : segs[i]? = some s) : (segs.set i s')[i]? = some s' := by
  have hlt : i < segs.length := (List.getElem?_eq_some_iff.mp h).1
  simp [List.getElem?_set, hlt]

/-- Through a mapped segment `send_message` either appends the entry, when
the segment can hold it, or does not return. -/
theorem Chat.send_message_of_mapped (fits : Alloc) {segs : List Segment} {c : Chat}
    {s : Segment} (hs : segs[c.m_shared_memory]? = some s) (m : Text) :
    c.send_message fits segs m =
      if fits s.vector (c_str m) then
        some (segs.set c.m_shared_memory { s with vector := s.vector ++ [c_str m] })
      else none := by
  unfold Chat.send_message Segment.send_message
  rw [hs]
  by_cases hf : fits s.vector (c_str m) = true
  · simp [hf]
  · simp [hf]

theorem Chat.send_message_cases (fits : Alloc) {segs : List Segment} {c : Chat}
    {s : Segment} (hs : segs[c.m_shared_memory]? = some s) (m : Text) :
    (fits s.vector (c_str m) = true ∧ c.send_message fits segs m =
        some (segs.set c.m_shared_memory { s with vector := s.vector ++ [c_str m] })) ∨
    (fits s.vector (c_str m) = false ∧ c.send_message fits segs m = none) := by
  rw [Chat.send_message_of_mapped fits hs]
  by_cases hf : fits s.vector (c_str m) = true
  · exact Or.inl ⟨hf, by simp [hf]⟩
  · exact Or.inr ⟨by simpa using hf, by simp [hf]⟩

theorem Chat.send_message_eq {segs segs' : List Segment} {c : Chat} {m : Text}
    (h : c.send_message fits segs m = some segs') :
    ∃ s, segs[c.m_shared_memory]? = some s ∧ fits s.vector (c_str m) = true ∧
      segs' = segs.set c.m_shared_memory { s with vector := s.vector ++ [c_str m] } := by
  cases hs : segs[c.m_shared_memory]? with
  | none => simp [Chat.send_message, hs] at h
  | some s =>
    rcases Chat.send_message_cases fits hs m with ⟨hf, hsend⟩ | ⟨_, hsend⟩
    · rw [hsend] at h
      exact ⟨s, rfl, hf, (Option.some.inj h).symm⟩
    · rw [hsend] at h
      cases h

theorem Chat.send_message_le {segs segs' : List Segment} {c : Chat} {m : Text}
    (h : c.send_message fits segs m = some segs') : SegsLe segs segs' := by
  obtain ⟨s, hs, _, rfl⟩ := Chat.send_message_eq h
  exact SegsLe.set hs (List.prefix_append _ _)

theorem Proc.ifAlive_eq {p : Proc} {st : Option (Shared × Proc)} {r : Shared × Proc}
    (h : p.ifAlive st = some r) : st = some r := by
  unfold Proc.ifAlive at h
  split at h
  · cases h
  · exact h

/-! ## The constructor -/

theorem SegsLe.set_attach (segs : List Segment) (i : Nat) :
    SegsLe segs (segs.set i (Segment.attach segs[i]?)) := by
  cases hs : segs[i]? with
  | none =>
    intro j t hj
    by_cases hij : i = j
    · subst hij
      rw [hs] at hj
      cases hj
    · exact ⟨t, by simp [List.getElem?_set, hij, hj], List.prefix_refl _⟩
  | some s => exact SegsLe.set hs (by simp [Segment.attach, find_or_construct])

theorem Chat.ctor_le (sh : Shared) (n : Text) : SegsLe sh.segs (Chat.ctor sh n).1.segs := by
  unfold Chat.ctor
  split
  · exact SegsLe.set_attach _ _
  · exact SegsLe.append _ _

/-- The session the constructor returns is mapped on a segment of the heap
and starts with cursor 0 and the flag unset. -/
theorem Chat.ctor_mapped (sh : Shared) (n : Text)
    (hn : ∀ i, sh.named = some i → i < sh.segs.length) :
    (Chat.ctor sh n).2.m_user_name = n ∧ (Chat.ctor sh n).2.m_exit_flag = false ∧
    (Chat.ctor sh n).2.m_local_messages = 0 ∧
    (Chat.ctor sh n).1.named = some (Chat.ctor sh n).2.m_shared_memory ∧
    ∃ s, (Chat.ctor sh n).1.segs[(Chat.ctor sh n).2.m_shared_memory]? = some s := by
  unfold Chat.ctor
  split
  · rename_i i hi
    have hlt := hn i hi
    refine ⟨rfl, rfl, rfl, hi, Segment.attach sh.segs[i]?, ?_⟩
    simp [List.getElem?_set, hlt]
  · exact ⟨rfl, rfl, rfl, rfl, Segment.attach none, by simp⟩

theorem Chat.ctor_named_lt (sh : Shared) (n : Text)
    (hn : ∀ i, sh.named = some i → i < sh.segs.length) :
    ∀ i, (Chat.ctor sh n).1.named = some i → i < (Chat.ctor sh n).1.segs.length := by
  unfold Chat.ctor
  split
  · intro i hi
    simpa using hn i hi
  · intro i hi
    simp only [Option.some.injEq] at hi
    subst hi
    simp

/-! ## Steps of the two threads -/

theorem Chat.write_body_le {segs : List Segment} {c : Chat} {l : Text}
    {r : List Segment × Chat} (h : Chat.write_body fits segs c l = some r) : SegsLe segs r.1 := by
  unfold Chat.write_body at h
  split at h
  · cases h
    exact SegsLe.refl _
  · split at h
    · rename_i segs' hs
      cases h
      exact Chat.send_message_le hs
    · cases h

theorem Proc.mainStep_le {sh : Shared} {p : Proc} {r : Shared × Proc}
    (h : p.mainStep fits sh = some r) : SegsLe sh.segs r.1.segs := by
  unfold Proc.mainStep at h
  split at h
  · cases h; exact SegsLe.refl _
  · split at h
    · cases h
    · cases h; exact SegsLe.refl _
  · cases h; exact Chat.ctor_le _ _
  · cases h; exact SegsLe.refl _
  · split at h
    · cases h
    · split at h
      · cases h; exact SegsLe.refl _
      · split at h
        · cases h
        · split at h
          · rename_i r' hw
            cases h
            exact Chat.write_body_le hw
          · cases h; exact SegsLe.refl _
  · split at h
    · cases h; exact SegsLe.refl _
    · cases h
  · split at h
    · cases h
    · split at h
      · rename_i segs' hs
        cases h
        exact Chat.send_message_le hs
      · cases h; exact SegsLe.refl _
  · split at h
    · cases h
    · split at h
      · cases h
      · rename_i s hs
        cases h
        exact SegsLe.set hs (by simp [Segment.detach])
  · cases h; exact SegsLe.refl _
  · cases h

theorem Proc.readerStep_le {sh : Shared} {p : Proc} {r : Shared × Proc}
    (h : p.readerStep fits sh = some r) : SegsLe sh.segs r.1.segs := by
  unfold Proc.readerStep at h
  split at h
  · cases h
  · split at h
    · cases h
    · split at h
      · rename_i segs' hs
        cases h
        exact Chat.send_message_le hs
      · cases h; exact SegsLe.refl _
  · split at h
    · cases h
    · split at h
      · cases h; exact SegsLe.refl _
      · cases h
  · cases h

theorem Proc.mainStep_named_lt {sh : Shared} {p : Proc} {r : Shared × Proc}
    (hn : ∀ i, sh.named = some i → i < sh.segs.length)
    (h : p.mainStep fits sh = some r) : ∀ i, r.1.named = some i → i < r.1.segs.length := by
  have hle := (Proc.mainStep_le h).length_le
  unfold Proc.mainStep at h
  split at h
  · cases h; intro i hi; simp [Shared.remove] at hi
  · split at h
    · cases h
    · cases h; exact hn
  · cases h; exact Chat.ctor_named_lt _ _ hn
  · cases h; exact hn
  · split at h
    · cases h
    · split at h
      · cases h; exact hn
      · split at h
        · cases h
        · split at h
          · cases h
            intro i hi
            exact Nat.lt_of_lt_of_le (hn i hi) hle
          · cases h; exact hn
  · split at h
    · cases h; exact hn
    · cases h
  · split at h
    · cases h
    · split at h
      · cases h
        intro i hi
        exact Nat.lt_of_lt_of_le (hn i hi) hle
      · cases h; exact hn
  · split at h
    · cases h
    · split at h
      · cases h
      · cases h
        intro i hi
        exact Nat.lt_of_lt_of_le (hn i hi) hle
  · cases h; intro i hi; simp [Shared.remove] at hi
  · cases h

theorem Proc.readerStep_named_lt {sh : Shared} {p : Proc} {r : Shared × Proc}
    (hn : ∀ i, sh.named = some i → i < sh.segs.length)
    (h : p.readerStep fits sh = some r) : ∀ i, r.1.named = some i → i < r.1.segs.length := by
  have hle := (Proc.readerStep_le h).length_le
  unfold Proc.readerStep at h
  split at h
  · cases h
  · split at h
    · cases h
    · split at h
      · cases h
        intro i hi
        exact Nat.lt_of_lt_of_le (hn i hi) hle
      · cases h; exact hn
  · split at h
    · cases h
    · split at h
      · cases h; exact hn
      · cases h
  · cases h

theorem ProcInv.intro {segs : List Segment} {p : Proc} {c : Chat} {s : Segment}
    (hc : p.chat = some c) (hm : p.main.constructed = true)
    (hs : segs[c.m_shared_memory]? = some s) (hi : SessionInv s p c) : ProcInv segs p := by
  unfold ProcInv
  rw [hc]
  exact ⟨hm, s, hs, hi⟩

theorem ProcInv.session {segs : List Segment} {p : Proc} {c : Chat}
    (h : ProcInv segs p) (hc : p.chat = some c) :
    p.main.constructed = true ∧ ∃ s, segs[c.m_shared_memory]? = some s ∧ SessionInv s p c := by
  unfold ProcInv at h
  rw [hc] at h
  exact h

theorem SessionInv.send {s : Segment} {p : Proc} {c : Chat} (h : SessionInv s p c)
    (m : Text) : SessionInv { s with vector := s.vector ++ [c_str m] } p c :=
  h.extend (List.prefix_append _ _)

theorem SessionInv.detach {s : Segment} {p : Proc} {c : Chat} (h : SessionInv s p c) :
    SessionInv s.detach.1 p c :=
  h.extend (List.prefix_refl _)

theorem Proc.mainStep_inv {sh : Shared} {p : Proc} {r : Shared × Proc}
    (hn : ∀ i, sh.named = some i → i < sh.segs.length)
    (hinv : ProcInv sh.segs p) (h : p.mainStep fits sh = some r) : ProcInv r.1.segs r.2 := by
  rcases p with ⟨stdin, user_name, chat, cout, main, reader, aborted⟩
  cases chat with
  | none =>
    unfold ProcInv at hinv
    simp only at hinv
    obtain ⟨hm, hr, hc⟩ := hinv
    subst hr hc
    cases main <;> simp [MainPc.constructed] at hm <;> simp only [Proc.mainStep] at h
    · cases h
      simp [ProcInv, MainPc.constructed]
    · cases stdin with
      | nil => simp at h
      | cons l rest =>
        simp only [Option.some.injEq] at h
        subst h
        simp [ProcInv, MainPc.constructed]
    · simp only [Option.some.injEq] at h
      subst h
      obtain ⟨h1, h2, h3, _, s, hs⟩ := Chat.ctor_mapped sh user_name hn
      simp only [ProcInv, MainPc.constructed, true_and]
      refine ⟨s, hs, ?_⟩
      constructor <;> simp [h1, h2, h3, ReadPc.afterJoined, MainPc.afterLeft, MainPc.afterJoin]
  | some c =>
    obtain ⟨hm, s, hs, hinv⟩ := hinv.session rfl
    cases main <;> simp [MainPc.constructed] at hm <;> simp only [Proc.mainStep] at h
    · -- spawn
      simp only [Option.some.injEq] at h
      subst h
      obtain ⟨i1, i2, i3, i4, i5, i6, i7, i8, i9⟩ := hinv
      refine ProcInv.intro rfl rfl hs ?_
      constructor <;>
        simp_all [ReadPc.afterJoined, MainPc.afterLeft, MainPc.afterJoin]
    · -- write
      by_cases hflag : c.m_exit_flag = true
      · simp only [hflag, if_true, Option.some.injEq] at h
        subst h
        obtain ⟨i1, i2, i3, i4, i5, i6, i7, i8, i9⟩ := hinv
        refine ProcInv.intro rfl rfl hs ?_
        constructor <;>
          simp_all [ReadPc.afterJoined, MainPc.afterLeft, MainPc.afterJoin]
      · simp only [hflag, Bool.false_eq_true, if_false] at h
        cases stdin with
        | nil => simp at h
        | cons l rest =>
          simp only [Chat.write_body] at h
          by_cases hl : l = exit_command
          · simp only [hl, if_true, Option.some.injEq] at h
            subst h
            obtain ⟨i1, i2, i3, i4, i5, i6, i7, i8, i9⟩ := hinv
            refine ProcInv.intro rfl rfl hs ?_
            constructor <;>
              simp_all [ReadPc.afterJoined, MainPc.afterLeft, MainPc.afterJoin]
          · simp only [hl, if_false] at h
            rcases Chat.send_message_cases fits hs
                (['['] ++ c.m_user_name ++ "]: ".toList ++ l) with
              ⟨_, hsend⟩ | ⟨_, hsend⟩ <;>
              simp only [hsend, Option.some.injEq] at h <;> subst h
            · obtain ⟨i1, i2, i3, i4, i5, i6, i7, i8, i9⟩ := hinv.send
                (['['] ++ c.m_user_name ++ "]: ".toList ++ l)
              refine ProcInv.intro rfl rfl (getElem?_set_self_of_some hs) ?_
              constructor <;>
                simp_all [ReadPc.afterJoined, MainPc.afterLeft, MainPc.afterJoin]
            · obtain ⟨i1, i2, i3, i4, i5, i6, i7, i8, i9⟩ := hinv
              refine ProcInv.intro rfl rfl hs ?_
              constructor <;>
                simp_all [ReadPc.afterJoined, MainPc.afterLeft, MainPc.afterJoin]
    · -- join
      by_cases hr : reader = ReadPc.exited
      · simp only [hr, if_true, Option.some.injEq] at h
        subst h
        obtain ⟨i1, i2, i3, i4, i5, i6, i7, i8, i9⟩ := hinv
        refine ProcInv.intro rfl rfl hs ?_
        constructor <;>
          simp_all [ReadPc.afterJoined, MainPc.afterLeft, MainPc.afterJoin]
      · simp [hr] at h
    · -- left
      rcases Chat.send_message_cases fits hs (c.m_user_name ++ left_suffix) with
        ⟨_, hsend⟩ | ⟨_, hsend⟩ <;>
        simp only [hsend, Option.some.injEq] at h <;> subst h
      · obtain ⟨i1, i2, i3, i4, i5, i6, i7, i8, i9⟩ := hinv.send (c.m_user_name ++ left_suffix)
        refine ProcInv.intro rfl rfl (getElem?_set_self_of_some hs) ?_
        constructor <;>
          simp_all [ReadPc.afterJoined, MainPc.afterLeft, MainPc.afterJoin]
      · obtain ⟨i1, i2, i3, i4, i5, i6, i7, i8, i9⟩ := hinv
        refine ProcInv.intro rfl rfl hs ?_
        constructor <;>
          simp_all [ReadPc.afterJoined, MainPc.afterLeft, MainPc.afterJoin]
    · -- decr
      simp only [hs, Option.some.injEq] at h
      subst h
      obtain ⟨i1, i2, i3, i4, i5, i6, i7, i8, i9⟩ := hinv.detach
      refine ProcInv.intro rfl ?_ (getElem?_set_self_of_some hs) ?_
      · simp only; split <;> rfl
      · constructor <;> simp only at * <;> (try split) <;>
          simp_all [ReadPc.afterJoined, MainPc.afterLeft, MainPc.afterJoin]
    · -- remove
      simp only [Option.some.injEq] at h
      subst h
      obtain ⟨i1, i2, i3, i4, i5, i6, i7, i8, i9⟩ := hinv
      refine ProcInv.intro rfl rfl hs ?_
      constructor <;>
        simp_all [ReadPc.afterJoined, MainPc.afterLeft, MainPc.afterJoin]
    · -- done
      simp at h

/-- With the session invariant, a pass of the outer loop of `Chat::read`
is enabled once the log is non-empty, and does what lines 99-106 say. -/
theorem Chat.read_pass_spec {segs : List Segment} {c : Chat} {cout : List Text} {s : Segment}
    (hs : segs[c.m_shared_memory]? = some s) (hne : s.vector ≠ [])
    (hle : c.m_local_messages ≤ s.vector.length)
    (hout : cout = s.vector.take c.m_local_messages) :
    Chat.read_pass segs c cout =
      if c.m_exit_flag then some (c, cout, true)
      else some ({ c with m_local_messages := s.vector.length }, s.vector, false) := by
  unfold Chat.read_pass
  have hpred : Chat.read_wait_pred s.vector = true := by
    cases hv : s.vector with
    | nil => exact absurd hv hne
    | cons a l => rfl
  simp only [hs, hpred, if_true]
  rw [Chat.read_inner_spec s.vector (s.vector.length + 1) (c.m_local_messages, cout) hle hout
    (by simp only; omega)]

theorem Proc.readerStep_inv {sh : Shared} {p : Proc} {r : Shared × Proc}
    (hinv : ProcInv sh.segs p) (h : p.readerStep fits sh = some r) : ProcInv r.1.segs r.2 := by
  rcases p with ⟨stdin, user_name, chat, cout, main, reader, aborted⟩
  cases chat with
  | none =>
    unfold ProcInv at hinv
    simp only at hinv
    obtain ⟨hm, hr, hc⟩ := hinv
    subst hr hc
    simp [Proc.readerStep] at h
  | some c =>
    obtain ⟨hm, s, hs, hinv⟩ := hinv.session rfl
    cases reader <;> simp only [Proc.readerStep] at h
    · simp at h
    · -- joined
      rcases Chat.send_message_cases fits hs (c.m_user_name ++ joined_suffix) with
        ⟨_, hsend⟩ | ⟨_, hsend⟩ <;>
        simp only [hsend, Option.some.injEq] at h <;> subst h
      · obtain ⟨i1, i2, i3, i4, i5, i6, i7, i8, i9⟩ := hinv.send (c.m_user_name ++ joined_suffix)
        refine ProcInv.intro rfl hm (getElem?_set_self_of_some hs) ?_
        constructor <;>
          simp_all [ReadPc.afterJoined, MainPc.afterLeft, MainPc.afterJoin]
      · obtain ⟨i1, i2, i3, i4, i5, i6, i7, i8, i9⟩ := hinv
        refine ProcInv.intro rfl hm hs ?_
        constructor <;>
          simp_all [ReadPc.afterJoined, MainPc.afterLeft, MainPc.afterJoin]
    · -- loop
      have hne : s.vector ≠ [] := by
        intro hnil
        have := hinv.joined_mem rfl
        rw [hnil] at this
        cases this
      rw [Chat.read_pass_spec hs hne hinv.cursor_le hinv.cout_eq] at h
      by_cases hflag : c.m_exit_flag = true
      · simp only [hflag, if_true, Option.some.injEq] at h
        subst h
        obtain ⟨i1, i2, i3, i4, i5, i6, i7, i8, i9⟩ := hinv
        refine ProcInv.intro rfl hm hs ?_
        constructor <;>
          simp_all [ReadPc.afterJoined, MainPc.afterLeft, MainPc.afterJoin]
      · simp only [hflag, Bool.false_eq_true, if_false, Option.some.injEq] at h
        subst h
        obtain ⟨i1, i2, i3, i4, i5, i6, i7, i8, i9⟩ := hinv
        refine ProcInv.intro rfl hm hs ?_
        constructor <;>
          simp_all [ReadPc.afterJoined, MainPc.afterLeft, MainPc.afterJoin]
    · simp at h

/-! ## The host -/

theorem mem_of_getElem?_eq_some {α : Type} {l : List α} {i : Nat} {a : α}
    (h : l[i]? = some a) : a ∈ l := by
  obtain ⟨hlt, rfl⟩ := List.getElem?_eq_some_iff.mp h
  exact List.getElem_mem hlt

theorem World.init_inv : WorldInv World.init :=
  { named_lt := fun i hi => by cases hi
    procs := fun p hp => by cases hp }

theorem World.step_le {w w' : World} {a : Action} (h : w.step fits a = some w') :
    SegsLe w.shared.segs w'.shared.segs := by
  unfold World.step at h
  cases a with
  | start stdin =>
    simp only [Option.some.injEq] at h
    subst h
    exact SegsLe.refl _
  | main pid =>
    simp only at h
    split at h
    · cases h
    · split at h
      · rename_i r hr
        replace hr := Proc.ifAlive_eq hr
        simp only [Option.some.injEq] at h
        subst h
        exact Proc.mainStep_le hr
      · cases h
  | reader pid =>
    simp only at h
    split at h
    · cases h
    · split at h
      · rename_i r hr
        replace hr := Proc.ifAlive_eq hr
        simp only [Option.some.injEq] at h
        subst h
        exact Proc.readerStep_le hr
      · cases h

theorem World.step_inv {w w' : World} {a : Action} (hinv : WorldInv w)
    (h : w.step fits a = some w') : WorldInv w' := by
  unfold World.step at h
  cases a with
  | start stdin =>
    simp only [Option.some.injEq] at h
    subst h
    refine ⟨hinv.named_lt, ?_⟩
    intro p hp
    rcases List.mem_append.mp hp with hp | hp
    · exact hinv.procs p hp
    · simp only [List.mem_singleton] at hp
      subst hp
      simp [ProcInv, Proc.start, MainPc.constructed]
  | main pid =>
    simp only at h
    split at h
    · cases h
    · rename_i p hp
      split at h
      · rename_i r hr
        replace hr := Proc.ifAlive_eq hr
        simp only [Option.some.injEq] at h
        subst h
        have hpin := hinv.procs p (mem_of_getElem?_eq_some hp)
        refine ⟨Proc.mainStep_named_lt hinv.named_lt hr, ?_⟩
        intro q hq
        rcases List.mem_or_eq_of_mem_set hq with hq | hq
        · exact (hinv.procs q hq).mono (Proc.mainStep_le hr)
        · subst hq
          exact Proc.mainStep_inv hinv.named_lt hpin hr
      · cases h
  | reader pid =>
    simp only at h
    split at h
    · cases h
    · rename_i p hp
      split at h
      · rename_i r hr
        replace hr := Proc.ifAlive_eq hr
        simp only [Option.some.injEq] at h
        subst h
        have hpin := hinv.procs p (mem_of_getElem?_eq_some hp)
        refine ⟨Proc.readerStep_named_lt hinv.named_lt hr, ?_⟩
        intro q hq
        rcases List.mem_or_eq_of_mem_set hq with hq | hq
        · exact (hinv.procs q hq).mono (Proc.readerStep_le hr)
        · subst hq
          exact Proc.readerStep_inv hpin hr
      · cases h

theorem World.run_cons {w : World} {a : Action} {rest : List Action} {w' : World}
    (h : w.run fits (a :: rest) = some w') : ∃ w1, w.step fits a = some w1 ∧ w1.run fits rest = some w' := by
  unfold World.run at h
  split at h
  · rename_i w1 h1
    exact ⟨w1, h1, h⟩
  · cases h

theorem World.run_inv {sched : List Action} :
    ∀ {w w' : World}, WorldInv w → w.run fits sched = some w' → WorldInv w' := by
  induction sched with
  | nil =>
    intro w w' hinv h
    simp only [World.run, Option.some.injEq] at h
    subst h
    exact hinv
  | cons a rest ih =>
    intro w w' hinv h
    obtain ⟨w1, h1, h2⟩ := World.run_cons h
    exact ih (World.step_inv hinv h1) h2

theorem World.run_le {sched : List Action} :
    ∀ {w w' : World}, w.run fits sched = some w' → SegsLe w.shared.segs w'.shared.segs := by
  induction sched with
  | nil =>
    intro w w' h
    simp only [World.run, Option.some.injEq] at h
    subst h
    exact SegsLe.refl _
  | cons a rest ih =>
    intro w w' h
    obtain ⟨w1, h1, h2⟩ := World.run_cons h
    exact (World.step_le h1).trans (ih h2)

/-- Every state a schedule reaches from the empty host satisfies the
invariant. -/
theorem World.reachable_inv {sched : List Action} {w : World}
    (h : World.init.run fits sched = some w) : WorldInv w :=
  World.run_inv World.init_inv h

/-- The session of process `pid` in a reachable state, with the segment it
has mapped and its invariant. -/
theorem World.reachable_session {sched : List Action} {w : World}
    (h : World.init.run fits sched = some w) {pid : Nat} {p : Proc} {c : Chat}
    (hp : w.procs[pid]? = some p) (hc : p.chat = some c) :
    ∃ s, w.shared.segs[c.m_shared_memory]? = some s ∧ SessionInv s p c := by
  have hinv := (World.reachable_inv h).procs p (mem_of_getElem?_eq_some hp)
  exact (hinv.session hc).2

/-! ## Cursor and output along the inner loop and along schedules -/

theorem Chat.read_inner_passes_prefix (v : List Text) :
    ∀ (n : Nat) (st st' : Nat × List Text), st.1 ≤ v.length → st.2 = v.take st.1 →
      Chat.read_inner_passes n v st = some st' →
      st'.1 ≤ v.length ∧ st'.2 = v.take st'.1 ∧ st.1 ≤ st'.1 := by
  intro n
  induction n with
  | zero =>
    intro st st' hle hout h
    simp only [Chat.read_inner_passes, Option.some.injEq] at h
    subst h
    exact ⟨hle, hout, Nat.le_refl _⟩
  | succ n ih =>
    intro st st' hle hout h
    unfold Chat.read_inner_passes at h
    split at h
    · split at h
      · rename_i st1 hb
        have hp := Chat.read_body_prefix hout hb
        have hc := (Chat.read_body_cursor hb).1
        obtain ⟨h1, h2, h3⟩ := ih st1 st' hp.1 hp.2 h
        exact ⟨h1, h2, by omega⟩
      · cases h
    · simp only [Option.some.injEq] at h
      subst h
      exact ⟨hle, hout, Nat.le_refl _⟩

/-- A step of the main thread leaves the cursor, the mapping and the name of
an existing session alone. -/
theorem Proc.mainStep_chat {sh : Shared} {p : Proc} {r : Shared × Proc} {c : Chat}
    (hinv : ProcInv sh.segs p) (hc : p.chat = some c) (h : p.mainStep fits sh = some r) :
    ∃ c', r.2.chat = some c' ∧ c'.m_local_messages = c.m_local_messages ∧
      c'.m_shared_memory = c.m_shared_memory ∧ c'.m_user_name = c.m_user_name ∧
      r.2.cout = p.cout := by
  rcases p with ⟨stdin, user_name, chat, cout, main, reader, aborted⟩
  simp only at hc
  subst hc
  obtain ⟨hm, s, hs, hinv⟩ := hinv.session rfl
  cases main <;> simp [MainPc.constructed] at hm <;> simp only [Proc.mainStep] at h
  · simp only [Option.some.injEq] at h
    subst h
    exact ⟨c, rfl, rfl, rfl, rfl, rfl⟩
  · by_cases hflag : c.m_exit_flag = true
    · simp only [hflag, if_true, Option.some.injEq] at h
      subst h
      exact ⟨c, rfl, rfl, rfl, rfl, rfl⟩
    · simp only [hflag, Bool.false_eq_true, if_false] at h
      cases stdin with
      | nil => simp at h
      | cons l rest =>
        simp only [Chat.write_body] at h
        by_cases hl : l = exit_command
        · simp only [hl, if_true, Option.some.injEq] at h
          subst h
          exact ⟨_, rfl, rfl, rfl, rfl, rfl⟩
        · simp only [hl, if_false] at h
          rcases Chat.send_message_cases fits hs (['['] ++ c.m_user_name ++ "]: ".toList ++ l) with
            ⟨_, hsend⟩ | ⟨_, hsend⟩ <;>
            simp only [hsend, Option.some.injEq] at h <;> subst h
          · exact ⟨c, rfl, rfl, rfl, rfl, rfl⟩
          · exact ⟨c, rfl, rfl, rfl, rfl, rfl⟩
  · by_cases hr : reader = ReadPc.exited
    · simp only [hr, if_true, Option.some.injEq] at h
      subst h
      exact ⟨c, rfl, rfl, rfl, rfl, rfl⟩
    · simp [hr] at h
  · rcases Chat.send_message_cases fits hs (c.m_user_name ++ left_suffix) with
      ⟨_, hsend⟩ | ⟨_, hsend⟩ <;>
      simp only [hsend, Option.some.injEq] at h <;> subst h
    · exact ⟨c, rfl, rfl, rfl, rfl, rfl⟩
    · exact ⟨c, rfl, rfl, rfl, rfl, rfl⟩
  · simp only [hs, Option.some.injEq] at h
    subst h
    exact ⟨c, rfl, rfl, rfl, rfl, rfl⟩
  · simp only [Option.some.injEq] at h
    subst h
    exact ⟨c, rfl, rfl, rfl, rfl, rfl⟩
  · simp at h

/-- A step of the reader thread never moves the cursor back and keeps the
mapping and the name. -/
theorem Proc.readerStep_chat {sh : Shared} {p : Proc} {r : Shared × Proc} {c : Chat}
    (hinv : ProcInv sh.segs p) (hc : p.chat = some c) (h : p.readerStep fits sh = some r) :
    ∃ c', r.2.chat = some c' ∧ c.m_local_messages ≤ c'.m_local_messages ∧
      c'.m_shared_memory = c.m_shared_memory ∧ c'.m_user_name = c.m_user_name := by
  rcases p with ⟨stdin, user_name, chat, cout, main, reader, aborted⟩
  simp only at hc
  subst hc
  obtain ⟨hm, s, hs, hinv⟩ := hinv.session rfl
  cases reader <;> simp only [Proc.readerStep] at h
  · simp at h
  · rcases Chat.send_message_cases fits hs (c.m_user_name ++ joined_suffix) with
      ⟨_, hsend⟩ | ⟨_, hsend⟩ <;>
      simp only [hsend, Option.some.injEq] at h <;> subst h
    · exact ⟨c, rfl, Nat.le_refl _, rfl, rfl⟩
    · exact ⟨c, rfl, Nat.le_refl _, rfl, rfl⟩
  · have hne : s.vector ≠ [] := by
      intro hnil
      have := hinv.joined_mem rfl
      rw [hnil] at this
      cases this
    rw [Chat.read_pass_spec hs hne hinv.cursor_le hinv.cout_eq] at h
    by_cases hflag : c.m_exit_flag = true
    · simp only [hflag, if_true, Option.some.injEq] at h
      subst h
      exact ⟨c, rfl, Nat.le_refl _, rfl, rfl⟩
    · simp only [hflag, Bool.false_eq_true, if_false, Option.some.injEq] at h
      subst h
      exact ⟨_, rfl, hinv.cursor_le, rfl, rfl⟩
  · simp at h

theorem getElem?_set_of_some {α : Type} {l : List α} {i j : Nat} {a b : α}
    (h : l[j]? = some a) : (l.set i b)[j]? = some (if i = j then b else a) := by
  have hlt : j < l.length := (List.getElem?_eq_some_iff.mp h).1
  by_cases hij : i = j
  · subst hij
    simp [List.getElem?_set, hlt]
  · simp [List.getElem?_set, hij, h]

/-- Across one scheduled step the session of a process keeps its mapping
and name, and its cursor does not decrease. -/
theorem World.step_chat {w w' : World} {a : Action} (hinv : WorldInv w)
    (h : w.step fits a = some w') {pid : Nat} {p : Proc} {c : Chat}
    (hp : w.procs[pid]? = some p) (hc : p.chat = some c) :
    ∃ p' c', w'.procs[pid]? = some p' ∧ p'.chat = some c' ∧
      c.m_local_messages ≤ c'.m_local_messages ∧
      c'.m_shared_memory = c.m_shared_memory ∧ c'.m_user_name = c.m_user_name := by
  have hlt : pid < w.procs.length := (List.getElem?_eq_some_iff.mp hp).1
  unfold World.step at h
  cases a with
  | start stdin =>
    simp only [Option.some.injEq] at h
    subst h
    exact ⟨p, c, by rw [List.getElem?_append_left hlt]; exact hp, hc, Nat.le_refl _, rfl, rfl⟩
  | main q =>
    simp only at h
    split at h
    · cases h
    · rename_i p0 hp0
      split at h
      · rename_i r hr
        replace hr := Proc.ifAlive_eq hr
        simp only [Option.some.injEq] at h
        subst h
        by_cases hq : q = pid
        · subst hq
          rw [hp] at hp0
          cases hp0
          obtain ⟨c', h1, h2, h3, h4, _⟩ :=
            Proc.mainStep_chat (hinv.procs p (mem_of_getElem?_eq_some hp)) hc hr
          exact ⟨r.2, c', by rw [getElem?_set_of_some hp]; simp, h1, by omega, h3, h4⟩
        · exact ⟨p, c, by rw [getElem?_set_of_some hp]; simp [hq], hc, Nat.le_refl _, rfl, rfl⟩
      · cases h
  | reader q =>
    simp only at h
    split at h
    · cases h
    · rename_i p0 hp0
      split at h
      · rename_i r hr
        replace hr := Proc.ifAlive_eq hr
        simp only [Option.some.injEq] at h
        subst h
        by_cases hq : q = pid
        · subst hq
          rw [hp] at hp0
          cases hp0
          obtain ⟨c', h1, h2, h3, h4⟩ :=
            Proc.readerStep_chat (hinv.procs p (mem_of_getElem?_eq_some hp)) hc hr
          exact ⟨r.2, c', by rw [getElem?_set_of_some hp]; simp, h1, h2, h3, h4⟩
        · exact ⟨p, c, by rw [getElem?_set_of_some hp]; simp [hq], hc, Nat.le_refl _, rfl, rfl⟩
      · cases h

/-- Along any schedule the cursor of a session never decreases. -/
theorem World.run_chat {sched : List Action} :
    ∀ {w w' : World}, WorldInv w → w.run fits sched = some w' →
      ∀ {pid : Nat} {p : Proc} {c : Chat}, w.procs[pid]? = some p → p.chat = some c →
      ∃ p' c', w'.procs[pid]? = some p' ∧ p'.chat = some c' ∧
        c.m_local_messages ≤ c'.m_local_messages ∧
        c'.m_shared_memory = c.m_shared_memory ∧ c'.m_user_name = c.m_user_name := by
  induction sched with
  | nil =>
    intro w w' _ h pid p c hp hc
    simp only [World.run, Option.some.injEq] at h
    subst h
    exact ⟨p, c, hp, hc, Nat.le_refl _, rfl, rfl⟩
  | cons a rest ih =>
    intro w w' hinv h pid p c hp hc
    obtain ⟨w1, h1, h2⟩ := World.run_cons h
    obtain ⟨p1, c1, hp1, hc1, hle1, hm1, hn1⟩ := World.step_chat hinv h1 hp hc
    obtain ⟨p2, c2, hp2, hc2, hle2, hm2, hn2⟩ := ih (World.step_inv hinv h1) h2 hp1 hc1
    exact ⟨p2, c2, hp2, hc2, by omega, by rw [hm2, hm1], by rw [hn2, hn1]⟩

/-! ## What the steps of the main thread can change -/

theorem c_str_eq_self {m : Text} (h : ∀ ch ∈ m, ch ≠ Char.ofNat 0) : c_str m = m := by
  unfold c_str
  rw [List.takeWhile_eq_self_iff]
  intro ch hch
  simpa using h ch hch

/-- A step of the main thread of a constructed session unbinds the name only
at line 84 and changes the participant counter only at line 83. -/
theorem Proc.mainStep_effects {sh : Shared} {p : Proc} {r : Shared × Proc} {c : Chat}
    {s : Segment} (hinv : ProcInv sh.segs p) (hc : p.chat = some c)
    (hs : sh.segs[c.m_shared_memory]? = some s) (h : p.mainStep fits sh = some r) :
    (r.1.named ≠ sh.named → p.main = MainPc.remove) ∧
    (∀ s', r.1.segs[c.m_shared_memory]? = some s' →
      s'.number_of_users ≠ s.number_of_users → p.main = MainPc.decr) := by
  rcases p with ⟨stdin, user_name, chat, cout, main, reader, aborted⟩
  simp only at hc
  subst hc
  obtain ⟨hm, s0, hs0, _⟩ := hinv.session rfl
  rw [hs] at hs0
  cases hs0
  cases main <;> simp [MainPc.constructed] at hm <;> simp only [Proc.mainStep] at h
  · simp only [Option.some.injEq] at h
    subst h
    exact ⟨fun hne => absurd rfl hne, fun s' h1 h2 => by rw [hs] at h1; cases h1; exact absurd rfl h2⟩
  · by_cases hflag : c.m_exit_flag = true
    · simp only [hflag, if_true, Option.some.injEq] at h
      subst h
      exact ⟨fun hne => absurd rfl hne,
        fun s' h1 h2 => by rw [hs] at h1; cases h1; exact absurd rfl h2⟩
    · simp only [hflag, Bool.false_eq_true, if_false] at h
      cases stdin with
      | nil => simp at h
      | cons l rest =>
        simp only [Chat.write_body] at h
        by_cases hl : l = exit_command
        · simp only [hl, if_true, Option.some.injEq] at h
          subst h
          exact ⟨fun hne => absurd rfl hne,
            fun s' h1 h2 => by rw [hs] at h1; cases h1; exact absurd rfl h2⟩
        · simp only [hl, if_false] at h
          rcases Chat.send_message_cases fits hs (['['] ++ c.m_user_name ++ "]: ".toList ++ l) with
            ⟨_, hsend⟩ | ⟨_, hsend⟩ <;>
            simp only [hsend, Option.some.injEq] at h <;> subst h
          · refine ⟨fun hne => absurd rfl hne, fun s' h1 h2 => ?_⟩
            rw [getElem?_set_self_of_some hs] at h1
            cases h1
            exact absurd rfl h2
          · exact ⟨fun hne => absurd rfl hne,
              fun s' h1 h2 => by rw [hs] at h1; cases h1; exact absurd rfl h2⟩
  · by_cases hr : reader = ReadPc.exited
    · simp only [hr, if_true, Option.some.injEq] at h
      subst h
      exact ⟨fun hne => absurd rfl hne,
        fun s' h1 h2 => by rw [hs] at h1; cases h1; exact absurd rfl h2⟩
    · simp [hr] at h
  · rcases Chat.send_message_cases fits hs (c.m_user_name ++ left_suffix) with
      ⟨_, hsend⟩ | ⟨_, hsend⟩ <;>
      simp only [hsend, Option.some.injEq] at h <;> subst h
    · refine ⟨fun hne => absurd rfl hne, fun s' h1 h2 => ?_⟩
      rw [getElem?_set_self_of_some hs] at h1
      cases h1
      exact absurd rfl h2
    · exact ⟨fun hne => absurd rfl hne,
        fun s' h1 h2 => by rw [hs] at h1; cases h1; exact absurd rfl h2⟩
  · exact ⟨fun hne => by
      simp only [hs, Option.some.injEq] at h
      subst h
      exact absurd rfl hne, fun _ _ _ => rfl⟩
  · exact ⟨fun _ => rfl, fun s' h1 h2 => by
      simp only [Option.some.injEq] at h
      subst h
      rw [show (sh.remove).segs = sh.segs from rfl, hs] at h1
      cases h1
      exact absurd rfl h2⟩
  · simp at h

/-! ## The unsigned decrement -/

/-- The decrement of `Segment.detach` is subtraction modulo `SIZE_MOD`. -/
theorem Segment.detach_eq_mod (s : Segment) (h : s.number_of_users < SIZE_MOD) :
    s.detach.2 = (s.number_of_users + (SIZE_MOD - 1)) % SIZE_MOD ∧
    s.detach.1.number_of_users = s.detach.2 := by
  refine ⟨?_, rfl⟩
  unfold Segment.detach SIZE_MOD at *
  simp only
  split <;> omega

/-! ## The participant counter along a sequence of operations -/

theorem SegOp.run_step (st : Option Segment × List Nat) (op : SegOp) (tr : List SegOp) :
    SegOp.run fits st (op :: tr) = SegOp.run fits (SegOp.apply fits st op) tr := rfl

theorem Segment.send_message_users (fits : Alloc) (s : Segment) (m : Text) :
    ((s.send_message fits m).getD s).number_of_users = s.number_of_users := by
  unfold Segment.send_message
  split <;> rfl

theorem Segment.attach_users (e : Option Segment) :
    (Segment.attach e).number_of_users = (SegOp.users (e, []) + 1) % SIZE_MOD := by
  cases e <;> rfl

/-- Constructors and sends keep an existing segment in existence. -/
theorem SegOp.run_isSome (tr : List SegOp) :
    ∀ (st : Option Segment × List Nat), SegOp.detach ∉ tr → st.1.isSome = true →
      (SegOp.run fits st tr).1.isSome = true := by
  induction tr with
  | nil => intro st _ hs; exact hs
  | cons op tr ih =>
    intro st hnd hs
    rw [SegOp.run_step]
    apply ih _ (fun hm => hnd (List.mem_cons_of_mem _ hm))
    cases op with
    | attach => rfl
    | send m =>
      rcases st with ⟨e, obs⟩
      cases e with
      | none => cases hs
      | some s => rfl
    | detach => exact absurd (List.mem_cons_self _ _) hnd

/-- Constructors and sends only: the counter is the number of constructors
modulo `SIZE_MOD`, and no decrement value is recorded. -/
theorem SegOp.run_joins (tr : List SegOp) :
    ∀ (st : Option Segment × List Nat), SegOp.detach ∉ tr →
      (SegOp.run fits st tr).2 = st.2 ∧
      SegOp.users (SegOp.run fits st tr) = (if tr.count SegOp.attach = 0 then SegOp.users st
        else (SegOp.users st + tr.count SegOp.attach) % SIZE_MOD) ∧
      (0 < tr.count SegOp.attach → (SegOp.run fits st tr).1.isSome = true) := by
  induction tr with
  | nil => intro st _; simp [SegOp.run]
  | cons op tr ih =>
    intro st hnd
    have hnd' : SegOp.detach ∉ tr := fun hm => hnd (List.mem_cons_of_mem _ hm)
    rw [SegOp.run_step]
    obtain ⟨h1, h2, h3⟩ := ih (SegOp.apply fits st op) hnd'
    cases op with
    | attach =>
      have hu : SegOp.users (SegOp.apply fits st SegOp.attach) = (SegOp.users st + 1) % SIZE_MOD := by
        rcases st with ⟨e, obs⟩
        cases e <;> rfl
      refine ⟨h1, ?_, ?_⟩
      · rw [h2, hu]
        simp only [List.count_cons_self, Nat.add_one_ne_zero, if_false]
        unfold SIZE_MOD
        split <;> omega
      · intro _
        by_cases hc : tr.count SegOp.attach = 0
        · exact SegOp.run_isSome tr _ hnd' rfl
        · exact h3 (Nat.pos_of_ne_zero hc)
    | send m =>
      have hu : SegOp.users (SegOp.apply fits st (SegOp.send m)) = SegOp.users st := by
        rcases st with ⟨e, obs⟩
        cases e with
        | none => rfl
        | some s => exact Segment.send_message_users fits s m
      have hc : (SegOp.send m :: tr).count SegOp.attach = tr.count SegOp.attach := by
        rw [List.count_cons]
        simp
      refine ⟨h1, ?_, ?_⟩
      · rw [h2, hu, hc]
      · rw [hc]
        exact h3
    | detach => exact absurd (List.mem_cons_self _ _) hnd

/-- Decrements and sends only, as many decrements as the counter says: the
counter ends at 0 and exactly one decrement returns 0 (none when the counter
was already 0). -/
theorem SegOp.run_leaves (tr : List SegOp) :
    ∀ (s : Segment) (obs : List Nat), SegOp.attach ∉ tr →
      tr.count SegOp.detach = s.number_of_users →
      SegOp.users (SegOp.run fits (some s, obs) tr) = 0 ∧
      (SegOp.run fits (some s, obs) tr).1.isSome = true ∧
      (SegOp.run fits (some s, obs) tr).2.count 0
        = obs.count 0 + (if s.number_of_users = 0 then 0 else 1) := by
  induction tr with
  | nil =>
    intro s obs _ hc
    simp only [List.count_nil] at hc
    simp [SegOp.run, SegOp.users, ← hc]
  | cons op tr ih =>
    intro s obs hna hc
    have hna' : SegOp.attach ∉ tr := fun hm => hna (List.mem_cons_of_mem _ hm)
    rw [SegOp.run_step]
    cases op with
    | attach => exact absurd (List.mem_cons_self _ _) hna
    | send m =>
      have hc' : tr.count SegOp.detach
          = ((s.send_message fits m).getD s).number_of_users := by
        rw [Segment.send_message_users]
        rw [List.count_cons] at hc
        simpa using hc
      have hres := ih ((s.send_message fits m).getD s) obs hna' hc'
      rw [Segment.send_message_users] at hres
      exact hres
    | detach =>
      rw [List.count_cons_self] at hc
      have hpos : s.number_of_users ≠ 0 := by omega
      have hd1 : s.detach.1.number_of_users = s.number_of_users - 1 := by
        simp [Segment.detach, hpos]
      have hd2 : s.detach.2 = s.number_of_users - 1 := by
        simp [Segment.detach, hpos]
      have hc' : tr.count SegOp.detach = s.detach.1.number_of_users := by
        rw [hd1]; omega
      obtain ⟨h1, h2, h3⟩ := ih s.detach.1 (obs ++ [s.detach.2]) hna' hc'
      refine ⟨h1, h2, ?_⟩
      have happ : SegOp.apply fits (some s, obs) SegOp.detach
          = (some s.detach.1, obs ++ [s.detach.2]) := rfl
      rw [happ, h3, hd1, hd2, List.count_append]
      simp only [hpos, if_false]
      by_cases hk : s.number_of_users - 1 = 0
      · simp [hk]
      · have : List.count 0 [s.number_of_users - 1] = 0 := by
          rw [List.count_eq_zero]
          simp only [List.mem_singleton]
          exact fun h0 => hk h0.symm
        simp [hk, this]

/-! ## The participant counter counts the attached sessions -/

theorem countP_set_of_some {α : Type} (f : α → Bool) :
    ∀ (l : List α) (i : Nat) (a b : α), l[i]? = some a →
      (l.set i b).countP f + (if f a then 1 else 0) = l.countP f + (if f b then 1 else 0) := by
  intro l
  induction l with
  | nil => intro i a b h; simp at h
  | cons x l ih =>
    intro i a b h
    cases i with
    | zero =>
      simp only [List.getElem?_cons_zero, Option.some.injEq] at h
      subst h
      simp only [List.set_cons_zero, List.countP_cons]
      omega
    | succ j =>
      simp only [List.getElem?_cons_succ] at h
      have := ih j a b h
      simp only [List.set_cons_succ, List.countP_cons]
      omega

theorem countP_pos_of_getElem? {α : Type} (f : α → Bool) {l : List α} {i : Nat} {a : α}
    (h : l[i]? = some a) (hf : f a = true) : 0 < l.countP f :=
  List.countP_pos_iff.mpr ⟨a, mem_of_getElem?_eq_some h, hf⟩

/-- What a step of the main thread does to the counter of segment `i` and to
whether the process counts as attached to it: nothing, or the constructor
attaches (counter plus one), or line 83 detaches (counter minus one). -/
theorem Proc.mainStep_count {sh : Shared} {p : Proc} {r : Shared × Proc}
    (hn : ∀ i, sh.named = some i → i < sh.segs.length)
    (hinv : ProcInv sh.segs p) (h : p.mainStep fits sh = some r) (i : Nat) (s' : Segment)
    (hs' : r.1.segs[i]? = some s') :
    (∃ s, sh.segs[i]? = some s ∧ s'.number_of_users = s.number_of_users ∧
        r.2.attachedTo i = p.attachedTo i) ∨
    (p.attachedTo i = false ∧ r.2.attachedTo i = true ∧
        s'.number_of_users = (SegOp.users (sh.segs[i]?, []) + 1) % SIZE_MOD ∧
        (sh.segs[i]? = none → sh.segs.length ≤ i)) ∨
    (∃ s, sh.segs[i]? = some s ∧ p.attachedTo i = true ∧ r.2.attachedTo i = false ∧
        s'.number_of_users = s.detach.2) := by
  have keep : ∀ (j : Nat) (s t : Segment), sh.segs[j]? = some s →
      t.number_of_users = s.number_of_users → (sh.segs.set j t)[i]? = some s' →
      ∃ s0, sh.segs[i]? = some s0 ∧ s'.number_of_users = s0.number_of_users := by
    intro j s t hs ht hset
    by_cases hji : j = i
    · subst hji
      rw [getElem?_set_self_of_some hs] at hset
      cases hset
      exact ⟨s, hs, ht⟩
    · rw [List.getElem?_set_ne hji] at hset
      exact ⟨s', hset, rfl⟩
  rcases p with ⟨stdin, user_name, chat, cout, main, reader, aborted⟩
  cases chat with
  | none =>
    unfold ProcInv at hinv
    simp only at hinv
    obtain ⟨hm, hr, hc⟩ := hinv
    subst hr hc
    cases main <;> simp [MainPc.constructed] at hm <;> simp only [Proc.mainStep] at h
    · simp only [Option.some.injEq] at h
      subst h
      exact Or.inl ⟨s', hs', rfl, rfl⟩
    · cases stdin with
      | nil => simp at h
      | cons l rest =>
        simp only [Option.some.injEq] at h
        subst h
        exact Or.inl ⟨s', hs', rfl, rfl⟩
    · simp only [Option.some.injEq] at h
      subst h
      simp only at hs'
      unfold Chat.ctor at hs' ⊢
      cases hnamed : sh.named with
      | some j =>
        have hj := hn j hnamed
        simp only [hnamed] at hs' ⊢
        by_cases hji : j = i
        · subst hji
          have hs0 : sh.segs[j]? = some (sh.segs.get ⟨j, hj⟩) := by
            simp [List.getElem?_eq_getElem hj]
          rw [getElem?_set_self_of_some hs0] at hs'
          cases hs'
          refine Or.inr (Or.inl ⟨rfl, ?_, ?_, ?_⟩)
          · simp [Proc.attachedTo, MainPc.attached]
          · exact Segment.attach_users _
          · intro hnone
            rw [hs0] at hnone
            cases hnone
        · rw [List.getElem?_set_ne hji] at hs'
          refine Or.inl ⟨s', hs', rfl, ?_⟩
          simp [Proc.attachedTo, hji]
      | none =>
        simp only [hnamed] at hs' ⊢
        by_cases hlt : i < sh.segs.length
        · rw [List.getElem?_append_left hlt] at hs'
          refine Or.inl ⟨s', hs', rfl, ?_⟩
          have : sh.segs.length ≠ i := by omega
          simp [Proc.attachedTo, this]
        · have hge : sh.segs.length ≤ i := by omega
          rw [List.getElem?_append_right hge] at hs'
          have hi : i = sh.segs.length := by
            by_contra hne
            have : 0 < i - sh.segs.length := by omega
            obtain ⟨k, hk⟩ := Nat.exists_eq_succ_of_ne_zero (Nat.pos_iff_ne_zero.mp this)
            rw [hk] at hs'
            simp at hs'
          subst hi
          simp only [Nat.sub_self, List.getElem?_cons_zero, Option.some.injEq] at hs'
          subst hs'
          refine Or.inr (Or.inl ⟨rfl, ?_, ?_, fun _ => Nat.le_refl _⟩)
          · simp [Proc.attachedTo, MainPc.attached]
          · rw [List.getElem?_eq_none (Nat.le_refl _)]
            rfl
  | some c =>
    obtain ⟨hm, s, hs, hinv⟩ := hinv.session rfl
    cases main <;> simp [MainPc.constructed] at hm <;> simp only [Proc.mainStep] at h
    · simp only [Option.some.injEq] at h
      subst h
      exact Or.inl ⟨s', hs', rfl, rfl⟩
    · by_cases hflag : c.m_exit_flag = true
      · simp only [hflag, if_true, Option.some.injEq] at h
        subst h
        exact Or.inl ⟨s', hs', rfl, rfl⟩
      · simp only [hflag, Bool.false_eq_true, if_false] at h
        cases stdin with
        | nil => simp at h
        | cons l rest =>
          simp only [Chat.write_body] at h
          by_cases hl : l = exit_command
          · simp only [hl, if_true, Option.some.injEq] at h
            subst h
            exact Or.inl ⟨s', hs', rfl, rfl⟩
          · simp only [hl, if_false] at h
            rcases Chat.send_message_cases fits hs
                (['['] ++ c.m_user_name ++ "]: ".toList ++ l) with
              ⟨_, hsend⟩ | ⟨_, hsend⟩ <;>
              simp only [hsend, Option.some.injEq] at h <;> subst h
            · obtain ⟨s0, h0, h1⟩ := keep c.m_shared_memory s
                { s with vector := s.vector ++
                    [c_str (['['] ++ c.m_user_name ++ "]: ".toList ++ l)] } hs rfl hs'
              exact Or.inl ⟨s0, h0, h1, rfl⟩
            · exact Or.inl ⟨s', hs', rfl, rfl⟩
    · by_cases hr : reader = ReadPc.exited
      · simp only [hr, if_true, Option.some.injEq] at h
        subst h
        exact Or.inl ⟨s', hs', rfl, rfl⟩
      · simp [hr] at h
    · rcases Chat.send_message_cases fits hs (c.m_user_name ++ left_suffix) with
        ⟨_, hsend⟩ | ⟨_, hsend⟩ <;>
        simp only [hsend, Option.some.injEq] at h <;> subst h
      · obtain ⟨s0, h0, h1⟩ := keep c.m_shared_memory s
          { s with vector := s.vector ++ [c_str (c.m_user_name ++ left_suffix)] } hs rfl hs'
        exact Or.inl ⟨s0, h0, h1, rfl⟩
      · exact Or.inl ⟨s', hs', rfl, rfl⟩
    · simp only [hs, Option.some.injEq] at h
      subst h
      simp only at hs'
      by_cases hji : c.m_shared_memory = i
      · subst hji
        rw [getElem?_set_self_of_some hs] at hs'
        cases hs'
        refine Or.inr (Or.inr ⟨s, hs, ?_, ?_, rfl⟩)
        · simp [Proc.attachedTo, MainPc.attached]
        · simp only [Proc.attachedTo]
          split <;> simp [MainPc.attached]
      · rw [List.getElem?_set_ne hji] at hs'
        refine Or.inl ⟨s', hs', rfl, ?_⟩
        simp [Proc.attachedTo, hji]
    · simp only [Option.some.injEq] at h
      subst h
      exact Or.inl ⟨s', hs', rfl, rfl⟩
    · simp at h

/-- A step of the reader thread changes neither a counter nor who is
attached. -/
theorem Proc.readerStep_count {sh : Shared} {p : Proc} {r : Shared × Proc}
    (hinv : ProcInv sh.segs p) (h : p.readerStep fits sh = some r) (i : Nat) (s' : Segment)
    (hs' : r.1.segs[i]? = some s') :
    ∃ s, sh.segs[i]? = some s ∧ s'.number_of_users = s.number_of_users ∧
      r.2.attachedTo i = p.attachedTo i := by
  rcases p with ⟨stdin, user_name, chat, cout, main, reader, aborted⟩
  cases chat with
  | none =>
    unfold ProcInv at hinv
    simp only at hinv
    obtain ⟨hm, hr, hc⟩ := hinv
    subst hr hc
    simp [Proc.readerStep] at h
  | some c =>
    obtain ⟨hm, s, hs, hinv⟩ := hinv.session rfl
    cases reader <;> simp only [Proc.readerStep] at h
    · simp at h
    · rcases Chat.send_message_cases fits hs (c.m_user_name ++ joined_suffix) with
        ⟨_, hsend⟩ | ⟨_, hsend⟩ <;>
        simp only [hsend, Option.some.injEq] at h <;> subst h
      · simp only at hs'
        by_cases hji : c.m_shared_memory = i
        · subst hji
          rw [getElem?_set_self_of_some hs] at hs'
          cases hs'
          exact ⟨s, hs, rfl, rfl⟩
        · rw [List.getElem?_set_ne hji] at hs'
          exact ⟨s', hs', rfl, rfl⟩
      · exact ⟨s', hs', rfl, rfl⟩
    · have hne : s.vector ≠ [] := by
        intro hnil
        have := hinv.joined_mem rfl
        rw [hnil] at this
        cases this
      rw [Chat.read_pass_spec hs hne hinv.cursor_le hinv.cout_eq] at h
      by_cases hflag : c.m_exit_flag = true
      · simp only [hflag, if_true, Option.some.injEq] at h
        subst h
        exact ⟨s', hs', rfl, rfl⟩
      · simp only [hflag, Bool.false_eq_true, if_false, Option.some.injEq] at h
        subst h
        exact ⟨s', hs', rfl, rfl⟩
    · simp at h

/-- No session is attached to a segment that does not exist. -/
theorem World.sessionsOn_of_none {w : World} (hinv : WorldInv w) {i : Nat}
    (hnone : w.shared.segs[i]? = none) : w.sessionsOn i = 0 := by
  unfold World.sessionsOn
  rw [List.countP_eq_zero]
  intro p hp hatt
  have hpi := hinv.procs p hp
  unfold Proc.attachedTo at hatt
  cases hc : p.chat with
  | none => simp [hc] at hatt
  | some c =>
    simp only [hc, Bool.and_eq_true, decide_eq_true_eq] at hatt
    obtain ⟨_, s, hs, _⟩ := hpi.session hc
    rw [hatt.1, hnone] at hs
    cases hs

theorem size_dec_of_count {u n n' : Nat} (hu : u = n % SIZE_MOD) (hn : n' + 1 = n) :
    (if u = 0 then SIZE_MOD - 1 else u - 1) = n' % SIZE_MOD := by
  unfold SIZE_MOD at *
  split <;> omega

theorem size_inc_of_count {u n : Nat} (hu : u = n % SIZE_MOD) :
    (u + 1) % SIZE_MOD = (n + 1) % SIZE_MOD := by
  unfold SIZE_MOD at *
  omega

/-- One scheduled step keeps every participant counter equal to the number
of attached sessions. -/
theorem World.step_count {w w' : World} {a : Action} (hinv : WorldInv w) (hcnt : CountInv w)
    (h : w.step fits a = some w') : CountInv w' := by
  unfold World.step at h
  cases a with
  | start stdin =>
    simp only [Option.some.injEq] at h
    subst h
    intro i s hs
    have := hcnt i s hs
    simp only [World.sessionsOn, List.countP_append] at this ⊢
    simpa [Proc.start, Proc.attachedTo] using this
  | main pid =>
    simp only at h
    split at h
    · cases h
    · rename_i p hp
      split at h
      · rename_i r hr
        replace hr := Proc.ifAlive_eq hr
        simp only [Option.some.injEq] at h
        subst h
        have hpin := hinv.procs p (mem_of_getElem?_eq_some hp)
        intro i s' hs'
        have hset := countP_set_of_some (Proc.attachedTo i) w.procs pid p r.2 hp
        simp only [World.sessionsOn]
        rcases Proc.mainStep_count hinv.named_lt hpin hr i s' hs' with
          ⟨s, hs, hu, hatt⟩ | ⟨hp0, hr1, hu, hlen⟩ | ⟨s, hs, hp1, hr0, hu⟩
        · rw [hatt] at hset
          have h0 := hcnt i s hs
          simp only [World.sessionsOn] at h0
          rw [hu, h0]
          congr 1
          omega
        · rw [hp0, hr1] at hset
          simp only [Bool.false_eq_true, if_false, if_true] at hset
          rw [hu, show List.countP (Proc.attachedTo i) (w.procs.set pid r.2)
            = List.countP (Proc.attachedTo i) w.procs + 1 by omega]
          cases hsi : w.shared.segs[i]? with
          | none =>
            have h0 := World.sessionsOn_of_none hinv hsi
            simp only [World.sessionsOn] at h0
            rw [h0]
            rfl
          | some s =>
            have h0 := hcnt i s hsi
            simp only [World.sessionsOn] at h0
            exact size_inc_of_count h0
        · rw [hp1, hr0] at hset
          simp only [Bool.false_eq_true, if_false, if_true] at hset
          have h0 := hcnt i s hs
          simp only [World.sessionsOn] at h0
          rw [hu]
          exact size_dec_of_count h0 hset
      · cases h
  | reader pid =>
    simp only at h
    split at h
    · cases h
    · rename_i p hp
      split at h
      · rename_i r hr
        replace hr := Proc.ifAlive_eq hr
        simp only [Option.some.injEq] at h
        subst h
        have hpin := hinv.procs p (mem_of_getElem?_eq_some hp)
        intro i s' hs'
        have hset := countP_set_of_some (Proc.attachedTo i) w.procs pid p r.2 hp
        simp only [World.sessionsOn]
        obtain ⟨s, hs, hu, hatt⟩ := Proc.readerStep_count hpin hr i s' hs'
        rw [hatt] at hset
        have h0 := hcnt i s hs
        simp only [World.sessionsOn] at h0
        rw [hu, h0]
        congr 1
        omega
      · cases h

theorem World.run_count {sched : List Action} :
    ∀ {w w' : World}, WorldInv w → CountInv w → w.run fits sched = some w' → CountInv w' := by
  induction sched with
  | nil =>
    intro w w' _ hcnt h
    simp only [World.run, Option.some.injEq] at h
    subst h
    exact hcnt
  | cons a rest ih =>
    intro w w' hinv hcnt h
    obtain ⟨w1, h1, h2⟩ := World.run_cons h
    exact ih (World.step_inv hinv h1) (World.step_count hinv hcnt h1) h2

/-- In every reachable state the participant counter of a segment is the
number of sessions attached to it, modulo the range of `std::size_t`. -/
theorem World.reachable_count {sched : List Action} {w : World}
    (h : World.init.run fits sched = some w) : CountInv w :=
  World.run_count World.init_inv (fun i s hs => by cases hs) h

end

/-! ## The claims -/

/-- C1: under every schedule and whatever the segment manager answers, in
every state a session's reader can be in, the lines the session has written
are the first `m_local_messages` entries of the log of its segment, in index
order: line `i` is entry `i`, so no entry is written twice or out of order;
every pass of the inner loop keeps this. -/
theorem C1_output_is_log_prefix (fits : Alloc) (sched : List Action) (w : World)
    (h : World.init.run fits sched = some w) (pid : Nat) (p : Proc) (c : Chat)
    (hp : w.procs[pid]? = some p) (hc : p.chat = some c) :
    ∃ s, w.shared.segs[c.m_shared_memory]? = some s ∧
      p.cout = s.vector.take c.m_local_messages ∧
      p.cout.length = c.m_local_messages ∧
      (∀ i, i < c.m_local_messages → p.cout[i]? = s.vector[i]?) ∧
      (∀ n st, Chat.read_inner_passes n s.vector (c.m_local_messages, p.cout) = some st →
        st.2 = s.vector.take st.1 ∧ st.2.length = st.1) := by
  obtain ⟨s, hs, hinv⟩ := World.reachable_session h hp hc
  refine ⟨s, hs, hinv.cout_eq, ?_, ?_, ?_⟩
  · rw [hinv.cout_eq, List.length_take]
    exact Nat.min_eq_left hinv.cursor_le
  · intro i hi
    rw [hinv.cout_eq, List.getElem?_take_of_lt hi]
  · intro n st hst
    obtain ⟨h1, h2, _⟩ :=
      Chat.read_inner_passes_prefix s.vector n _ st hinv.cursor_le hinv.cout_eq hst
    refine ⟨h2, ?_⟩
    rw [h2, List.length_take]
    exact Nat.min_eq_left h1

/-- Witness for C1: the theorem applied to a concrete run. -/
theorem C1_output_is_log_prefix_witness :
    World.init.run (byte_alloc memory_size) demo_two = some demo_two_world ∧
    ∃ s, demo_two_world.shared.segs[demo_two_alice_chat.m_shared_memory]? = some s ∧
      demo_two_alice.cout = s.vector.take demo_two_alice_chat.m_local_messages ∧
      demo_two_alice.cout.length = demo_two_alice_chat.m_local_messages ∧
      (∀ i, i < demo_two_alice_chat.m_local_messages →
        demo_two_alice.cout[i]? = s.vector[i]?) ∧
      (∀ n st, Chat.read_inner_passes n s.vector
          (demo_two_alice_chat.m_local_messages, demo_two_alice.cout) = some st →
        st.2 = s.vector.take st.1 ∧ st.2.length = st.1) :=
  ⟨by decide,
   C1_output_is_log_prefix (byte_alloc memory_size) demo_two demo_two_world (by decide) 0
     demo_two_alice demo_two_alice_chat (by decide) (by decide)⟩

/-- C2, as stated, fails: in `demo_exit_only_pre` the only input line is
`!exit` and the writer reads it before the reader thread runs; the reader
posts its join notice, finds the flag set on its first pass and leaves the
loop with cursor 0 and nothing written, while the log has one entry. -/
theorem C2_counterexample :
    World.init.run (byte_alloc memory_size) demo_exit_only_pre
      = some demo_exit_only_pre_world ∧
    demo_exit_only_pre_world.step (byte_alloc memory_size) (Action.reader 0)
      = some demo_exit_only_world ∧
    ¬ (∀ (fits : Alloc) (sched : List Action) (w w' : World) (pid : Nat) (p p' : Proc)
        (c' : Chat) (s' : Segment),
        World.init.run fits sched = some w → w.step fits (Action.reader pid) = some w' →
        w.procs[pid]? = some p → p.reader = ReadPc.loop →
        w'.procs[pid]? = some p' → p'.reader = ReadPc.exited →
        p'.chat = some c' → w'.shared.segs[c'.m_shared_memory]? = some s' →
        c'.m_local_messages = s'.vector.length) := by
  refine ⟨by decide, by decide, fun H => ?_⟩
  have h0 := H (byte_alloc memory_size) demo_exit_only_pre demo_exit_only_pre_world
    demo_exit_only_world 0
    (demo_exit_only_proc ReadPc.loop) (demo_exit_only_proc ReadPc.exited)
    demo_exit_only_chat demo_exit_only_segment
    (by decide) (by decide) (by decide) rfl (by decide) rfl rfl (by decide)
  exact absurd h0 (by decide)

/-- C2, amended: when the reader loop has exited, the exit flag is set, the
cursor is at most the log length and the lines written are the first
`m_local_messages` entries of the log; a pass of the loop that finds the flag
set leaves at once, cursor and output unchanged (line 99 precedes the inner
loop), and only a pass that finds it unset moves the cursor to the log length
and writes the whole log. -/
theorem C2_exit_pass_does_not_drain (fits : Alloc) (sched : List Action) (w : World)
    (h : World.init.run fits sched = some w) (pid : Nat) (p : Proc) (c : Chat)
    (hp : w.procs[pid]? = some p) (hc : p.chat = some c) :
    ∃ s, w.shared.segs[c.m_shared_memory]? = some s ∧
      (p.reader = ReadPc.exited →
        c.m_exit_flag = true ∧ c.m_local_messages ≤ s.vector.length ∧
        p.cout = s.vector.take c.m_local_messages) ∧
      (p.reader = ReadPc.loop →
        Chat.read_pass w.shared.segs c p.cout =
          if c.m_exit_flag then some (c, p.cout, true)
          else some ({ c with m_local_messages := s.vector.length }, s.vector, false)) := by
  obtain ⟨s, hs, hinv⟩ := World.reachable_session h hp hc
  refine ⟨s, hs, fun hr => ⟨hinv.flag_set hr, hinv.cursor_le, hinv.cout_eq⟩, fun hr => ?_⟩
  have hne : s.vector ≠ [] := by
    intro hnil
    have := hinv.joined_mem (by rw [hr]; rfl)
    rw [hnil] at this
    cases this
  exact Chat.read_pass_spec hs hne hinv.cursor_le hinv.cout_eq

/-- Witness for C2: the theorem applied to a concrete run. -/
theorem C2_exit_pass_does_not_drain_witness :
    World.init.run (byte_alloc memory_size) (demo_full "carol".toList)
      = some demo_full_world ∧
    ∃ s, demo_full_world.shared.segs[demo_full_chat.m_shared_memory]? = some s ∧
      (demo_full_proc.reader = ReadPc.exited →
        demo_full_chat.m_exit_flag = true ∧ demo_full_chat.m_local_messages ≤ s.vector.length ∧
        demo_full_proc.cout = s.vector.take demo_full_chat.m_local_messages) ∧
      (demo_full_proc.reader = ReadPc.loop →
        Chat.read_pass demo_full_world.shared.segs demo_full_chat demo_full_proc.cout =
          if demo_full_chat.m_exit_flag then some (demo_full_chat, demo_full_proc.cout, true)
          else some ({ demo_full_chat with m_local_messages := s.vector.length },
                     s.vector, false)) :=
  ⟨by decide,
   C2_exit_pass_does_not_drain (byte_alloc memory_size) (demo_full "carol".toList)
     demo_full_world (by decide) 0 demo_full_proc demo_full_chat (by decide) (by decide)⟩

/-- C3, at the failing input: with `alice` attached (counter 1, name bound
to segment 0), the first step of a second process, line 140 of `main`,
unbinds the name; the counter of segment 0 is still 1 and no process has
reached the decrement. -/
theorem C3_main_removes_unconditionally :
    (World.init.run (byte_alloc memory_size) demo_late_before).map
        (fun w => (w.shared.named, w.shared.segs.map Segment.number_of_users,
                   w.procs.map Proc.main))
      = some (some 0, [1], [MainPc.write]) ∧
    (World.init.run (byte_alloc memory_size)
        (demo_late_before ++ [Action.start ["bob".toList], Action.main 1])).map
        (fun w => (w.shared.named, w.shared.segs.map Segment.number_of_users,
                   w.procs.map Proc.main))
      = some (none, [1], [MainPc.write, MainPc.getname]) := by
  constructor <;> decide

/-- C4: the participant counter is 0 when first constructed, a constructor
adds exactly one and the decrement of `Chat::run` takes exactly one off; so
for every `N` from 1 up to the range of `std::size_t`, every order in
which the lock and the atomic serialise the operations of the sessions and
whatever the segment manager answers,
after `N` constructors on the segment (no decrement yet) the counter is `N`,
and after the `N` decrements that follow it is 0, and exactly one of these
decrements returned 0.  On the whole program, under every schedule, the
counter of a segment is the number of sessions constructed on it that have
not decremented, and a decrement returns 0 exactly when its session is the
only one still attached. -/
theorem C4_counter_counts_sessions (fits : Alloc) (N : Nat) (hN : 1 ≤ N) (hlt : N < SIZE_MOD)
    (joins leaves : List SegOp)
    (hj : joins.count SegOp.attach = N) (hjd : SegOp.detach ∉ joins)
    (hl : leaves.count SegOp.detach = N) (hla : SegOp.attach ∉ leaves) :
    find_or_construct (none : Option Nat) 0 = 0 ∧
    (∀ e : Option Segment,
      (Segment.attach e).number_of_users = (SegOp.users (e, []) + 1) % SIZE_MOD) ∧
    (∀ s : Segment, 0 < s.number_of_users →
      s.detach.1.number_of_users = s.number_of_users - 1 ∧
      s.detach.2 = s.number_of_users - 1) ∧
    (SegOp.run fits (none, []) joins).1.map Segment.number_of_users = some N ∧
    (SegOp.run fits (SegOp.run fits (none, []) joins) leaves).1.map Segment.number_of_users = some 0 ∧
    (SegOp.run fits (SegOp.run fits (none, []) joins) leaves).2.count 0 = 1 ∧
    (∀ (sched : List Action) (w : World) (i : Nat) (s : Segment),
      World.init.run fits sched = some w → w.shared.segs[i]? = some s →
      s.number_of_users = w.sessionsOn i % SIZE_MOD) ∧
    (∀ (sched : List Action) (w : World) (pid : Nat) (p : Proc) (c : Chat) (s : Segment),
      World.init.run fits sched = some w → w.procs[pid]? = some p → p.chat = some c →
      w.shared.segs[c.m_shared_memory]? = some s → p.main = MainPc.decr →
      w.sessionsOn c.m_shared_memory < SIZE_MOD →
      (s.detach.2 = 0 ↔ w.sessionsOn c.m_shared_memory = 1)) := by
  obtain ⟨h1, h2, h3⟩ := @SegOp.run_joins fits joins (none, []) hjd
  have hNM : N % SIZE_MOD = N := Nat.mod_eq_of_lt hlt
  have hpos : 0 < joins.count SegOp.attach := by omega
  have hu : SegOp.users (SegOp.run fits (none, []) joins) = N := by
    rw [h2, hj]
    have hN0 : N ≠ 0 := by omega
    simp only [hN0, if_false]
    show (0 + N) % SIZE_MOD = N
    rw [Nat.zero_add, hNM]
  have hsome := h3 hpos
  obtain ⟨s, hs⟩ := Option.isSome_iff_exists.mp hsome
  have hst : SegOp.run fits (none, []) joins = (some s, []) := by
    apply Prod.ext
    · exact hs
    · exact h1
  have hsu : s.number_of_users = N := by
    rw [hst] at hu
    exact hu
  obtain ⟨g1, g2, g3⟩ := @SegOp.run_leaves fits leaves s [] hla (by rw [hl, hsu])
  refine ⟨rfl, Segment.attach_users, ?_, ?_, ?_, ?_, ?_, ?_⟩
  · intro t ht
    have hne : t.number_of_users ≠ 0 := by omega
    simp [Segment.detach, hne]
  · rw [hst]
    simp [hsu]
  · rw [hst]
    obtain ⟨t, ht⟩ := Option.isSome_iff_exists.mp g2
    rw [ht]
    simp only [SegOp.users, ht] at g1
    simp [g1]
  · rw [hst, g3, hsu]
    have hN0 : N ≠ 0 := by omega
    simp [hN0]
  · intro sched w i t hrun ht
    exact World.reachable_count hrun i t ht
  · intro sched w pid p c t hrun hp hc ht hdecr hbound
    have hcount := World.reachable_count hrun _ t ht
    rw [Nat.mod_eq_of_lt hbound] at hcount
    have hatt : Proc.attachedTo c.m_shared_memory p = true := by
      simp [Proc.attachedTo, hc, hdecr, MainPc.attached]
    have hge : 0 < w.sessionsOn c.m_shared_memory := countP_pos_of_getElem? _ hp hatt
    have hne : t.number_of_users ≠ 0 := by omega
    simp only [Segment.detach, hne, if_false]
    omega

/-- Witness for C4: the theorem applied to a concrete run. -/
theorem C4_counter_counts_sessions_witness :
    (1 ≤ 3 ∧ 3 < SIZE_MOD) ∧
    (find_or_construct (none : Option Nat) 0 = 0 ∧
    (∀ e : Option Segment,
      (Segment.attach e).number_of_users = (SegOp.users (e, []) + 1) % SIZE_MOD) ∧
    (∀ s : Segment, 0 < s.number_of_users →
      s.detach.1.number_of_users = s.number_of_users - 1 ∧
      s.detach.2 = s.number_of_users - 1) ∧
    (SegOp.run (byte_alloc memory_size) (none, []) demo_joins).1.map Segment.number_of_users = some 3 ∧
    (SegOp.run (byte_alloc memory_size) (SegOp.run (byte_alloc memory_size) (none, []) demo_joins) demo_leaves).1.map Segment.number_of_users
      = some 0 ∧
    (SegOp.run (byte_alloc memory_size) (SegOp.run (byte_alloc memory_size) (none, []) demo_joins) demo_leaves).2.count 0 = 1 ∧
    (∀ (sched : List Action) (w : World) (i : Nat) (s : Segment),
      World.init.run (byte_alloc memory_size) sched = some w → w.shared.segs[i]? = some s →
      s.number_of_users = w.sessionsOn i % SIZE_MOD) ∧
    (∀ (sched : List Action) (w : World) (pid : Nat) (p : Proc) (c : Chat) (s : Segment),
      World.init.run (byte_alloc memory_size) sched = some w → w.procs[pid]? = some p → p.chat = some c →
      w.shared.segs[c.m_shared_memory]? = some s → p.main = MainPc.decr →
      w.sessionsOn c.m_shared_memory < SIZE_MOD →
      (s.detach.2 = 0 ↔ w.sessionsOn c.m_shared_memory = 1))) :=
  ⟨⟨by decide, by decide⟩,
   C4_counter_counts_sessions (byte_alloc memory_size) 3 (by decide) (by decide) demo_joins demo_leaves
     (by decide) (by decide) (by decide) (by decide)⟩

/-- C5, at the failing input: with `alice` attached to segment 0 (log `L` of
one entry, counter 1), a second process that starts and runs `main` through
its constructor is mapped on a new segment 1 with an empty log and counter
1, and segment 0 still has counter 1; the constructor alone, run on the state
before the second process started, would have attached to segment 0 with the
log `L` and counter 2. -/
theorem C5_late_process_creates_fresh_segment :
    (World.init.run (byte_alloc memory_size) demo_late_before).map (fun w => (w.shared.named, w.shared.segs))
      = some (some 0, [{ vector := ["alice joined the chat".toList], number_of_users := 1,
                         message_ID := 0 }]) ∧
    (World.init.run (byte_alloc memory_size) demo_late).map
        (fun w => (w.shared.named, w.shared.segs,
                   w.procs.map (fun p => p.chat.map Chat.m_shared_memory)))
      = some (some 1,
              [{ vector := ["alice joined the chat".toList], number_of_users := 1,
                 message_ID := 0 },
               { vector := [], number_of_users := 1, message_ID := 0 }],
              [some 0, some 1]) ∧
    (World.init.run (byte_alloc memory_size) demo_late_before).map
        (fun w => ((Chat.ctor w.shared "bob".toList).1.segs,
                   (Chat.ctor w.shared "bob".toList).2.m_shared_memory))
      = some ([{ vector := ["alice joined the chat".toList], number_of_users := 2,
                 message_ID := 0 }], 0) := by
  refine ⟨?_, ?_, ?_⟩ <;> decide

/-- C6, as stated, fails: the entry `send_message` appends is built from
`message.c_str()`, so a message with a NUL character is stored cut at the
NUL, even when the call returns; and when the segment cannot hold the entry
(here 15 bytes asked of 8) the call throws and appends nothing. -/
theorem C6_counterexample :
    Segment.send_message (byte_alloc memory_size)
      { vector := [], number_of_users := 1, message_ID := 0 } nul_name
      = some { vector := ["a".toList], number_of_users := 1, message_ID := 0 } ∧
    Segment.send_message (byte_alloc 8)
      { vector := [], number_of_users := 1, message_ID := 0 } "a long message".toList
      = none ∧
    ¬ (∀ (fits : Alloc) (s s' : Segment) (m : Text),
        s.send_message fits m = some s' → s'.vector = s.vector ++ [m]) := by
  refine ⟨by decide, by decide, fun H => ?_⟩
  have h0 := H (byte_alloc memory_size)
    { vector := [], number_of_users := 1, message_ID := 0 }
    { vector := ["a".toList], number_of_users := 1, message_ID := 0 } nul_name (by decide)
  exact absurd h0 (by decide)

/-- C6, amended: for every log and every text `m`, when the segment can
hold the new entry `send_message(m)` leaves the log equal to the old log
followed by one new last entry, the characters of `m` before its first NUL
(`m` itself when it has none): the length grows by one, every earlier entry
keeps its index and content and the counters are untouched; when the segment
cannot hold it, the call throws and appends nothing; and along every
schedule the log of every segment only grows at its end. -/
theorem C6_send_message_appends (fits : Alloc) (s : Segment) (m : Text) :
    (fits s.vector (c_str m) = true →
      ∃ s', s.send_message fits m = some s' ∧
        s'.vector = s.vector ++ [c_str m] ∧
        s'.vector.length = s.vector.length + 1 ∧
        (∀ i, i < s.vector.length → s'.vector[i]? = s.vector[i]?) ∧
        s'.number_of_users = s.number_of_users) ∧
    (fits s.vector (c_str m) = false → s.send_message fits m = none) ∧
    ((∀ ch ∈ m, ch ≠ Char.ofNat 0) → c_str m = m) ∧
    (∀ (segs : List Segment) (c : Chat), segs[c.m_shared_memory]? = some s →
      c.send_message fits segs m =
        (s.send_message fits m).map (fun s' => segs.set c.m_shared_memory s')) ∧
    (∀ (w w' : World) (sched : List Action), w.run fits sched = some w' →
      ∀ (i : Nat) (t : Segment), w.shared.segs[i]? = some t →
        ∃ t', w'.shared.segs[i]? = some t' ∧ t.vector <+: t'.vector) := by
  refine ⟨fun hf => ?_, fun hf => ?_, c_str_eq_self, ?_, ?_⟩
  · refine ⟨{ s with vector := s.vector ++ [c_str m] }, ?_, rfl, by simp, ?_, rfl⟩
    · simp [Segment.send_message, hf]
    · intro i hi
      simp only
      rw [List.getElem?_append_left hi]
  · simp [Segment.send_message, hf]
  · intro segs c hs
    rw [Chat.send_message_of_mapped fits hs]
    unfold Segment.send_message
    split <;> rfl
  · intro w w' sched hrun
    exact World.run_le hrun

/-- C7, as stated, fails: for the name `a` and the input line `x`, NUL, `y`
the entry appended is `[a]: x`, the text cut at the NUL, not the whole text
`"[" + n + "]: " + s`; and when the segment cannot hold the entry (here 8
bytes asked of a segment that already holds 18 of its 20) the call of line
130 throws and nothing is appended. -/
theorem C7_counterexample :
    Chat.write_body (byte_alloc memory_size) [demo_writer_segment] demo_writer nul_line =
      some ([{ demo_writer_segment with
                vector := demo_writer_segment.vector ++ ["[a]: x".toList] }], demo_writer) ∧
    Chat.write_body (byte_alloc 20) [demo_writer_segment] demo_writer "hi".toList = none ∧
    ¬ (∀ (fits : Alloc) (segs : List Segment) (c : Chat) (line : Text) (s : Segment)
        (r : List Segment × Chat),
        segs[c.m_shared_memory]? = some s → line ≠ exit_command →
        Chat.write_body fits segs c line = some r →
        r = (segs.set c.m_shared_memory
               { s with vector := s.vector ++ [['['] ++ c.m_user_name ++ "]: ".toList ++ line] },
             c)) := by
  refine ⟨by decide, by decide, fun H => ?_⟩
  have h0 := H (byte_alloc memory_size) [demo_writer_segment] demo_writer nul_line
    demo_writer_segment
    ([{ demo_writer_segment with
          vector := demo_writer_segment.vector ++ ["[a]: x".toList] }], demo_writer)
    (by decide) (by decide) (by decide)
  exact absurd h0 (by decide)

/-- C7, amended: for an input line handled by the loop of `Chat::write`, if
the line is exactly `!exit` the exit flag is set and the log is unchanged;
otherwise the flag is unchanged and, when the segment can hold the entry,
exactly one entry is appended to the log, the characters of
`"[" + n + "]: " + s` before its first NUL (the whole text when neither the
name nor the line has a NUL); when the segment cannot hold it,
`send_message` throws out of `write`, nothing is appended and the process is
terminated. -/
theorem C7_write_body (fits : Alloc) (segs : List Segment) (c : Chat) (line : Text)
    (s : Segment) (hs : segs[c.m_shared_memory]? = some s) :
    (line = exit_command →
      Chat.write_body fits segs c line = some (segs, { c with m_exit_flag := true })) ∧
    (line ≠ exit_command →
      fits s.vector (c_str (['['] ++ c.m_user_name ++ "]: ".toList ++ line)) = true →
      Chat.write_body fits segs c line =
        some (segs.set c.m_shared_memory
                { s with vector := s.vector ++
                    [c_str (['['] ++ c.m_user_name ++ "]: ".toList ++ line)] },
              c)) ∧
    (line ≠ exit_command →
      fits s.vector (c_str (['['] ++ c.m_user_name ++ "]: ".toList ++ line)) = false →
      Chat.write_body fits segs c line = none ∧
      ∀ (sh : Shared) (p : Proc) (rest : List Text), sh.segs = segs → p.chat = some c →
        p.main = MainPc.write → c.m_exit_flag = false → p.stdin = line :: rest →
        p.mainStep fits sh = some (sh, { p with stdin := rest, aborted := true })) ∧
    ((∀ ch ∈ c.m_user_name, ch ≠ Char.ofNat 0) → (∀ ch ∈ line, ch ≠ Char.ofNat 0) →
      c_str (['['] ++ c.m_user_name ++ "]: ".toList ++ line)
        = ['['] ++ c.m_user_name ++ "]: ".toList ++ line) := by
  have hnone : line ≠ exit_command →
      fits s.vector (c_str (['['] ++ c.m_user_name ++ "]: ".toList ++ line)) = false →
      Chat.write_body fits segs c line = none := by
    intro hl hf
    unfold Chat.write_body
    rw [if_neg hl, Chat.send_message_of_mapped fits hs]
    simp only [hf, Bool.false_eq_true, if_false]
  refine ⟨fun hl => ?_, fun hl hf => ?_, fun hl hf => ⟨hnone hl hf, ?_⟩, fun hn hline => ?_⟩
  · simp [Chat.write_body, hl]
  · unfold Chat.write_body
    rw [if_neg hl, Chat.send_message_of_mapped fits hs]
    simp only [hf, if_true]
  · intro sh p rest hsegs hc hmain hflag hstdin
    unfold Proc.mainStep
    rw [hmain]
    simp only [hc, hflag, hstdin, hsegs, hnone hl hf]
    rfl
  · apply c_str_eq_self
    intro ch hch
    simp only [List.mem_append, List.mem_singleton] at hch
    rcases hch with ((hch | hch) | hch) | hch
    · subst hch; decide
    · exact hn ch hch
    · revert ch; decide
    · exact hline ch hch

/-- Witness for C7: the theorem applied to the session `a` and the input
line `hi`. -/
theorem C7_write_body_witness :
    [demo_writer_segment][demo_writer.m_shared_memory]? = some demo_writer_segment ∧
    (("hi".toList = exit_command →
      Chat.write_body (byte_alloc memory_size) [demo_writer_segment] demo_writer "hi".toList =
        some ([demo_writer_segment], { demo_writer with m_exit_flag := true })) ∧
    ("hi".toList ≠ exit_command →
      byte_alloc memory_size demo_writer_segment.vector
        (c_str (['['] ++ demo_writer.m_user_name ++ "]: ".toList ++ "hi".toList)) = true →
      Chat.write_body (byte_alloc memory_size) [demo_writer_segment] demo_writer "hi".toList =
        some ([demo_writer_segment].set demo_writer.m_shared_memory
                { demo_writer_segment with vector := demo_writer_segment.vector ++
                    [c_str (['['] ++ demo_writer.m_user_name ++ "]: ".toList ++ "hi".toList)] },
              demo_writer)) ∧
    ("hi".toList ≠ exit_command →
      byte_alloc memory_size demo_writer_segment.vector
        (c_str (['['] ++ demo_writer.m_user_name ++ "]: ".toList ++ "hi".toList)) = false →
      Chat.write_body (byte_alloc memory_size) [demo_writer_segment] demo_writer "hi".toList
        = none ∧
      ∀ (sh : Shared) (p : Proc) (rest : List Text), sh.segs = [demo_writer_segment] →
        p.chat = some demo_writer → p.main = MainPc.write →
        demo_writer.m_exit_flag = false → p.stdin = "hi".toList :: rest →
        p.mainStep (byte_alloc memory_size) sh
          = some (sh, { p with stdin := rest, aborted := true })) ∧
    ((∀ ch ∈ demo_writer.m_user_name, ch ≠ Char.ofNat 0) →
      (∀ ch ∈ "hi".toList, ch ≠ Char.ofNat 0) →
      c_str (['['] ++ demo_writer.m_user_name ++ "]: ".toList ++ "hi".toList)
        = ['['] ++ demo_writer.m_user_name ++ "]: ".toList ++ "hi".toList)) :=
  ⟨by decide,
   C7_write_body (byte_alloc memory_size) [demo_writer_segment] demo_writer "hi".toList
     demo_writer_segment (by decide)⟩

/-- C8, as stated, fails: for the name `a`, NUL, `b` the entry `Chat::run`
appends before the decrement is `a`, the text cut at the NUL, and the text
`n + " left the chat"` is not in the log when the session has finished; and
in a segment that cannot hold the entry (here 40 bytes, 34 of them taken)
line 81 throws, nothing is appended and the session never decrements. -/
theorem C8_counterexample :
    World.init.run (byte_alloc memory_size) (demo_full nul_name) = some demo_nul_world ∧
    World.init.run (byte_alloc 40) (demo_left "carol".toList ++ [Action.main 0])
      = some { demo_left_world with procs := [{ demo_left_proc with aborted := true }] } ∧
    ¬ (∀ (fits : Alloc) (sched : List Action) (w : World) (pid : Nat) (p : Proc) (c : Chat)
        (s : Segment),
        World.init.run fits sched = some w → w.procs[pid]? = some p → p.chat = some c →
        w.shared.segs[c.m_shared_memory]? = some s → p.main = MainPc.done →
        (c.m_user_name ++ left_suffix) ∈ s.vector) := by
  refine ⟨by decide, by decide, fun H => ?_⟩
  have h0 := H (byte_alloc memory_size) (demo_full nul_name) demo_nul_world 0 demo_nul_proc
    demo_nul_chat demo_nul_segment (by decide) (by decide) rfl (by decide) rfl
  exact absurd h0 (by decide)

/-- C8, amended: in every execution of `Chat::run` for a session named
`n`, the step of line 81 runs only after the reader has exited; when the
segment can hold the entry it appends the characters of
`n + " left the chat"` before its first NUL (the whole text when `n` has no
NUL) and leads to the decrement, and when the segment cannot hold it the
call throws, nothing is appended and the session is terminated without
decrementing; that entry is in the log whenever the session is at the
decrement, at the removal or past it; and the main thread of a session
changes the participant counter only at the decrement of line 83 and
unbinds the name only at line 84. -/
theorem C8_departure_before_decrement (fits : Alloc) (sched : List Action) (w : World)
    (h : World.init.run fits sched = some w) (pid : Nat) (p : Proc) (c : Chat)
    (hp : w.procs[pid]? = some p) (hc : p.chat = some c) :
    ∃ s, w.shared.segs[c.m_shared_memory]? = some s ∧
      (p.main = MainPc.left → p.reader = ReadPc.exited ∧
        (fits s.vector (c_str (c.m_user_name ++ left_suffix)) = true →
          p.mainStep fits w.shared =
            some ({ w.shared with segs := (w.shared.segs.set c.m_shared_memory
                      { s with vector := s.vector ++ [c_str (c.m_user_name ++ left_suffix)] }) },
                  { p with main := MainPc.decr })) ∧
        (fits s.vector (c_str (c.m_user_name ++ left_suffix)) = false →
          p.mainStep fits w.shared = some (w.shared, { p with aborted := true }))) ∧
      (p.main = MainPc.decr ∨ p.main = MainPc.remove ∨ p.main = MainPc.done →
        c_str (c.m_user_name ++ left_suffix) ∈ s.vector ∧ p.reader = ReadPc.exited) ∧
      (∀ r, p.mainStep fits w.shared = some r →
        (r.1.named ≠ w.shared.named → p.main = MainPc.remove) ∧
        (∀ s', r.1.segs[c.m_shared_memory]? = some s' →
          s'.number_of_users ≠ s.number_of_users → p.main = MainPc.decr)) ∧
      ((∀ ch ∈ c.m_user_name, ch ≠ Char.ofNat 0) →
        c_str (c.m_user_name ++ left_suffix) = c.m_user_name ++ left_suffix) := by
  have hpinv := (World.reachable_inv h).procs p (mem_of_getElem?_eq_some hp)
  obtain ⟨s, hs, hinv⟩ := World.reachable_session h hp hc
  refine ⟨s, hs, fun hl => ⟨hinv.reader_exited (by rw [hl]; rfl), fun hf => ?_, fun hf => ?_⟩,
    fun hl => ?_, fun r hr => Proc.mainStep_effects hpinv hc hs hr, fun hn => ?_⟩
  · unfold Proc.mainStep
    rw [hl]
    simp only [hc, Chat.send_message_of_mapped fits hs, hf, if_true]
  · unfold Proc.mainStep
    rw [hl]
    simp only [hc, Chat.send_message_of_mapped fits hs, hf, Bool.false_eq_true, if_false]
  · have ha : p.main.afterLeft = true := by
      rcases hl with hl | hl | hl <;> rw [hl] <;> rfl
    have hj : p.main.afterJoin = true := by
      rcases hl with hl | hl | hl <;> rw [hl] <;> rfl
    exact ⟨hinv.left_mem ha, hinv.reader_exited hj⟩
  · apply c_str_eq_self
    intro ch hch
    simp only [List.mem_append] at hch
    rcases hch with hch | hch
    · exact hn ch hch
    · revert ch; decide

/-- Witness for C8: the theorem applied to the session `carol` when
`reader.join()` has returned, just before line 81. -/
theorem C8_departure_before_decrement_witness :
    World.init.run (byte_alloc memory_size) (demo_left "carol".toList)
      = some demo_left_world ∧
    ∃ s, demo_left_world.shared.segs[demo_full_chat.m_shared_memory]? = some s ∧
      (demo_left_proc.main = MainPc.left → demo_left_proc.reader = ReadPc.exited ∧
        (byte_alloc memory_size s.vector (c_str (demo_full_chat.m_user_name ++ left_suffix))
            = true →
          demo_left_proc.mainStep (byte_alloc memory_size) demo_left_world.shared =
            some ({ demo_left_world.shared with
                      segs := (demo_left_world.shared.segs.set demo_full_chat.m_shared_memory
                        { s with vector := s.vector ++
                            [c_str (demo_full_chat.m_user_name ++ left_suffix)] }) },
                  { demo_left_proc with main := MainPc.decr })) ∧
        (byte_alloc memory_size s.vector (c_str (demo_full_chat.m_user_name ++ left_suffix))
            = false →
          demo_left_proc.mainStep (byte_alloc memory_size) demo_left_world.shared
            = some (demo_left_world.shared, { demo_left_proc with aborted := true }))) ∧
      (demo_left_proc.main = MainPc.decr ∨ demo_left_proc.main = MainPc.remove ∨
          demo_left_proc.main = MainPc.done →
        c_str (demo_full_chat.m_user_name ++ left_suffix) ∈ s.vector ∧
          demo_left_proc.reader = ReadPc.exited) ∧
      (∀ r, demo_left_proc.mainStep (byte_alloc memory_size) demo_left_world.shared = some r →
        (r.1.named ≠ demo_left_world.shared.named → demo_left_proc.main = MainPc.remove) ∧
        (∀ s', r.1.segs[demo_full_chat.m_shared_memory]? = some s' →
          s'.number_of_users ≠ s.number_of_users → demo_left_proc.main = MainPc.decr)) ∧
      ((∀ ch ∈ demo_full_chat.m_user_name, ch ≠ Char.ofNat 0) →
        c_str (demo_full_chat.m_user_name ++ left_suffix)
          = demo_full_chat.m_user_name ++ left_suffix) :=
  ⟨by decide,
   C8_departure_before_decrement (byte_alloc memory_size) (demo_left "carol".toList)
     demo_left_world (by decide) 0 demo_left_proc demo_full_chat (by decide) (by decide)⟩

/-- C9, as stated, fails: with one entry in the log and the cursor at 1 the
wait predicate of line 97 is true although no entry is unread. -/
theorem C9_counterexample :
    Chat.read_wait_pred ["x".toList] = true ∧ ¬ (1 < ["x".toList].length) ∧
    ¬ (∀ (v : List Text) (cursor : Nat), Chat.read_wait_pred v = true ↔ cursor < v.length) := by
  refine ⟨by decide, by decide, fun H => ?_⟩
  have h0 := (H ["x".toList] 1).mp (by decide)
  exact absurd h0 (by decide)

/-- C9, amended: the reader starts from cursor 0, and the predicate it hands
to the condition wait is true exactly when the log is non-empty, whatever the
cursor; a pass of `Chat::read` gets past the wait only with a non-empty log,
and whether an entry is unread is decided after the wait by the test of the
inner loop, which then runs no pass when the cursor equals the log length. -/
theorem C9_wait_predicate_is_nonempty (v : List Text) :
    (Chat.read_wait_pred v = true ↔ 0 < v.length) ∧
    (∀ (sh : Shared) (n : Text), (Chat.ctor sh n).2.m_local_messages = 0) ∧
    (∀ (segs : List Segment) (c : Chat) (cout : List Text) (r : Chat × List Text × Bool),
      Chat.read_pass segs c cout = some r →
      ∃ s, segs[c.m_shared_memory]? = some s ∧ 0 < s.vector.length) ∧
    (∀ (fuel : Nat) (out : List Text),
      Chat.read_inner (fuel + 1) v (v.length, out) = some (v.length, out)) := by
  refine ⟨?_, ?_, ?_, ?_⟩
  · cases v with
    | nil => simp [Chat.read_wait_pred]
    | cons a l => simp [Chat.read_wait_pred]
  · intro sh n
    unfold Chat.ctor
    split <;> rfl
  · intro segs c cout r hr
    unfold Chat.read_pass at hr
    split at hr
    · cases hr
    · rename_i s hs
      refine ⟨s, hs, ?_⟩
      split at hr
      · rename_i hpred
        cases hv : s.vector with
        | nil => rw [hv] at hpred; simp [Chat.read_wait_pred] at hpred
        | cons a l => simp
      · cases hr
  · intro fuel out
    simp [Chat.read_inner]

/-- C10: whatever the segment manager answers, in every reachable state the
cursor `m_local_messages` of a session is at most the length of the log of
its segment, and along every continuation of the schedule it does not
decrease; so the inner loop of `Chat::read`,
given fuel for the entries still to read, returns (no index out of range, no
divergence) with the cursor equal to the log length. -/
theorem C10_cursor_bounded_monotone (fits : Alloc) (sched : List Action) (w : World)
    (h : World.init.run fits sched = some w) (pid : Nat) (p : Proc) (c : Chat)
    (hp : w.procs[pid]? = some p) (hc : p.chat = some c) :
    ∃ s, w.shared.segs[c.m_shared_memory]? = some s ∧
      c.m_local_messages ≤ s.vector.length ∧
      (∀ more w', w.run fits more = some w' →
        ∃ p' c', w'.procs[pid]? = some p' ∧ p'.chat = some c' ∧
          c.m_local_messages ≤ c'.m_local_messages) ∧
      (∀ fuel, s.vector.length - c.m_local_messages < fuel →
        Chat.read_inner fuel s.vector (c.m_local_messages, p.cout)
          = some (s.vector.length, s.vector)) := by
  obtain ⟨s, hs, hinv⟩ := World.reachable_session h hp hc
  refine ⟨s, hs, hinv.cursor_le, ?_, ?_⟩
  · intro more w' hrun
    obtain ⟨p', c', hp', hc', hle, _, _⟩ :=
      World.run_chat (World.reachable_inv h) hrun hp hc
    exact ⟨p', c', hp', hc', hle⟩
  · intro fuel hfuel
    exact Chat.read_inner_spec s.vector fuel _ hinv.cursor_le hinv.cout_eq hfuel

/-- Witness for C10: the theorem applied to a concrete run. -/
theorem C10_cursor_bounded_monotone_witness :
    World.init.run (byte_alloc memory_size) demo_two = some demo_two_world ∧
    ∃ s, demo_two_world.shared.segs[demo_two_bob_chat.m_shared_memory]? = some s ∧
      demo_two_bob_chat.m_local_messages ≤ s.vector.length ∧
      (∀ more w', demo_two_world.run (byte_alloc memory_size) more = some w' →
        ∃ p' c', w'.procs[1]? = some p' ∧ p'.chat = some c' ∧
          demo_two_bob_chat.m_local_messages ≤ c'.m_local_messages) ∧
      (∀ fuel, s.vector.length - demo_two_bob_chat.m_local_messages < fuel →
        Chat.read_inner fuel s.vector (demo_two_bob_chat.m_local_messages, demo_two_bob.cout)
          = some (s.vector.length, s.vector)) :=
  ⟨by decide,
   C10_cursor_bounded_monotone (byte_alloc memory_size) demo_two demo_two_world (by decide) 1 demo_two_bob
     demo_two_bob_chat (by decide) (by decide)⟩


end LocalChat
